import Mathlib

/-!
Craft persistence engine (`src/db.c`): a shallow embedding

The C file keeps its state in process-wide globals.  The embedding collects the
globals that the verified functions read or write in one record, `DbState`, and
turns every C function into a Lean function from a state to a state (or to a
result).

Conventions of the embedding.

* `int` and `unsigned int` values are item ids, coordinates and counters; they are
  embedded as `Int` and `Nat`.  The only arithmetic performed on them is `+ 1`
  and comparison.  Where the item code adds 1 to an id or converts an
  `unsigned int` to `int`, the result is reduced to 32 bits (`int_wrap`,
  `uint_wrap`).
* A heap block obtained from `calloc` is a `List Int`.  A `NULL` pointer and a
  block of zero elements are both the empty list: every access to either is out
  of bounds.
* An access outside a heap block is undefined behaviour in C; a function that
  performs one returns `none`.
* C strings are `String`; `strcmp` equality and SQL text equality are `=`.
  A `const char *` that a node keeps is `some` string while the memory it
  points to still holds the string and `none` once that memory was released.
* The SQLite connection is embedded by the content of its tables: the content
  that is durable (`committed`) and the content seen by the connection inside
  its open transaction (`txn`).  A statement takes effect unless a `not null`
  column rejects the row (the insert of a NaN into table `state`).
* Threads are sequentialised: the queue is the list of commands in the order of
  their enqueueing and the worker consumes it from the front.
-/

namespace Craft

/-! ## Data model -/

/-- Node of the persisted item list, `struct db_item_list` (db.c:33). The
`next_ptr` link is the list structure itself. The field `name` is a pointer the
node does not own: `some s` while it points to the string `s`, `none` when the
memory it points to was released (a dangling pointer). -/
structure db_item_list where
  name : Option String := some ""
  id : Int := 0
deriving DecidableEq, Repr

/-- Node of the runtime item registry, `struct item_list` (item.h:24), with the
fields that db.c reads: the name and the runtime id. -/
structure item_list where
  name : String := ""
  id : Nat := 0
deriving DecidableEq, Repr

/-- Row of table `block` and of table `light`: `(p, q, x, y, z, w)`. -/
structure BlockRow where
  p : Int := 0
  q : Int := 0
  x : Int := 0
  y : Int := 0
  z : Int := 0
  w : Int := 0
deriving DecidableEq, Repr

/-- Row of table `key`: `(p, q, key)`. -/
structure KeyRow where
  p : Int := 0
  q : Int := 0
  key : Int := 0
deriving DecidableEq, Repr

/-- Row of table `sign`: `(p, q, x, y, z, face, text)`. -/
structure SignRow where
  p : Int := 0
  q : Int := 0
  x : Int := 0
  y : Int := 0
  z : Int := 0
  face : Int := 0
  text : String := ""
deriving DecidableEq, Repr

/-- Row of table `items`: `(id, name)`. -/
structure ItemRow where
  id : Int := 0
  name : String := ""
deriving DecidableEq, Repr

/-- A `float` value of the player state. db.c does not compute with these
values: it hands them to the store and gets them back. A value that is a number
is kept as a token that is only compared for equality; `nan` is a NaN, which
the store does not keep (see `insert_state_query`). -/
inductive CFloat where
  | value (token : Nat)
  | nan
deriving DecidableEq, Repr

/-- The test `x != x` of a float: true of a NaN only. -/
def CFloat.isNaN : CFloat → Bool
  | CFloat.value _ => false
  | CFloat.nan => true

/-- Row of table `state`: `(x, y, z, rx, ry)`. The same record holds the five
outputs of `db_load_state`. -/
structure StateRow where
  x : CFloat := CFloat.value 0
  y : CFloat := CFloat.value 0
  z : CFloat := CFloat.value 0
  rx : CFloat := CFloat.value 0
  ry : CFloat := CFloat.value 0
deriving DecidableEq, Repr

/-- Whether one of the five values of a row is a NaN. -/
def StateRow.hasNaN (r : StateRow) : Bool :=
  r.x.isNaN || r.y.isNaN || r.z.isNaN || r.rx.isNaN || r.ry.isNaN

/-- Content of the tables created by `create_query` (db.c:127) that the
verified functions use. Each table is the list of its rows in insertion order. -/
structure Tables where
  block : List BlockRow := []
  light : List BlockRow := []
  key : List KeyRow := []
  sign : List SignRow := []
  items : List ItemRow := []
  state : List StateRow := []
deriving DecidableEq, Repr

/-- The connection `sqlite3 *db`: the durable content and the content inside
the open transaction (`begin;` at db.c:251, `commit; begin;` at db.c:292). -/
structure Db where
  committed : Tables := {}
  txn : Tables := {}
deriving DecidableEq, Repr

/-- Discriminant of a queued command (`e.type`, db.c:689). -/
inductive RingEntryType where
  | BLOCK
  | LIGHT
  | KEY
  | COMMIT
  | EXIT
deriving DecidableEq, Repr

/-- Queued command `RingEntry`, with the fields db.c reads (db.c:689-704). -/
structure RingEntry where
  type : RingEntryType := RingEntryType.EXIT
  p : Int := 0
  q : Int := 0
  x : Int := 0
  y : Int := 0
  z : Int := 0
  w : Int := 0
  key : Int := 0
deriving DecidableEq, Repr

/-- The globals of db.c and item.h that the verified functions use. -/
structure DbState where
  db_enabled : Bool := false
  db : Db := {}
  ring : List RingEntry := []
  db_items : List db_item_list := []
  last_db_item_id : Int := 0
  _db_to_id : List Int := []
  _id_to_db : List Int := []
  items : List item_list := []
  last_item_id : Nat := 0
deriving DecidableEq, Repr

/-! ## Item id remapping cache (db.c:46-109) -/

/-- The largest `int`. -/
def INT_MAX : Int := 2147483647

/-- The largest `unsigned int`. -/
def UINT_MAX : Nat := 4294967295

/-- The `int` that a 32-bit two's complement machine holds for the mathematical
value `v`: the result of an `int` addition that overflows and of the conversion
of an `unsigned int` above `INT_MAX` to `int`. -/
def int_wrap (v : Int) : Int :=
  (v + 2147483648) % 4294967296 - 2147483648

/-- The `unsigned int` for the mathematical value `v`: arithmetic modulo
`UINT_MAX + 1`. -/
def uint_wrap (v : Nat) : Nat :=
  v % 4294967296

/-- Modelled from the spec: `get_item_by_name` is declared in item.h and defined
in item.c, which is not part of the sources at hand. The registry identifies an
item by its name, so the lookup yields the first registry node carrying the
name, or `NULL` (`none`). -/
def get_item_by_name (items : List item_list) (name : String) : Option item_list :=
  items.find? (fun item => item.name = name)

/-- The loop of `_recalc_last_db_item_id` (db.c:50-54) from a current value
of `last_db_item_id`. -/
def last_db_item_id_loop : List db_item_list → Int → Int
  | [], last => last
  | it :: rest, last => last_db_item_id_loop rest (if last < it.id then it.id else last)

/-- Embedding of `_recalc_last_db_item_id` (db.c:46). -/
def _recalc_last_db_item_id (st : DbState) : DbState :=
  { st with last_db_item_id := last_db_item_id_loop st.db_items 0 }

/-- The assignment `a[i] = v` on a heap block; `none` when `i` is outside it. -/
def array_store (a : List Int) (i : Int) (v : Int) : Option (List Int) :=
  if 0 ≤ i ∧ i < (a.length : Int) then some (a.set i.toNat v) else none

/-- The value of `item_id` in the body of the loop of `_recalc_db_item_caches`
(db.c:84-89) for the name pointer of a persisted node: the runtime id of the
registered item, converted from `itemid` (`unsigned int`, item.h:8) to `int`,
and 0 when `get_item_by_name` returns `NULL`. Through a dangling pointer
`get_item_by_name` compares the registry names with bytes that are no longer
the name; they are taken to spell no registered name, so it returns `NULL`. -/
def cache_item_id (items : List item_list) (name : Option String) : Int :=
  match name with
  | none => 0
  | some s =>
    match get_item_by_name items s with
    | none => 0
    | some item => int_wrap (item.id : Int)

/-- The loop of `_recalc_db_item_caches` (db.c:82-92) over the persisted list,
threading the two arrays `_db_to_id` and `_id_to_db`. -/
def recalc_caches_loop (items : List item_list) :
    List db_item_list → List Int → List Int → Option (List Int × List Int)
  | [], d2i, i2d => some (d2i, i2d)
  | it :: rest, d2i, i2d =>
    let db_id : Int := it.id
    let item_id : Int := cache_item_id items it.name
    match array_store d2i db_id item_id with
    | none => none
    | some d2i1 =>
      match array_store i2d item_id db_id with
      | none => none
      | some i2d1 => recalc_caches_loop items rest d2i1 i2d1

/-- Embedding of `_recalc_db_item_caches` (db.c:64): both arrays are allocated
zeroed, with `last_db_item_id + 1` elements (an `int` sum, db.c:74) and
`last_item_id + 1` elements (an `unsigned int` sum, db.c:75), and filled by the
loop. A count that is not positive gives no block to write to (`calloc` of a
negative `int` count converted to `size_t` fails, a count of 0 gives an empty
block). -/
def _recalc_db_item_caches (st : DbState) : Option DbState :=
  let d2i := List.replicate (int_wrap (st.last_db_item_id + 1)).toNat (0 : Int)
  let i2d := List.replicate (uint_wrap (st.last_item_id + 1)) (0 : Int)
  match recalc_caches_loop st.items st.db_items d2i i2d with
  | none => none
  | some (a, b) => some { st with _db_to_id := a, _id_to_db := b }

/-- Embedding of `item_db_to_id` (db.c:95); `none` when the array read is out of
bounds. `last_db_item_id` is 0 at start and `_recalc_last_db_item_id` computes
a maximum from 0, so it is never negative in a run and the comparison of the
unsigned `id` with it is the comparison of the two numbers. -/
def item_db_to_id (st : DbState) (id : Nat) : Option Int :=
  if (id : Int) ≤ st.last_db_item_id then st._db_to_id[id]? else some 0

/-- Embedding of `item_id_to_db` (db.c:103); `none` when the array read is out of bounds. -/
def item_id_to_db (st : DbState) (id : Nat) : Option Int :=
  if id ≤ st.last_item_id then st._id_to_db[id]? else some 0

/-! ## Prepared statements (db.c:177-213)

Each function gives the effect of one execution of a statement on the rows of
its table. `insert or replace` under a unique index deletes the rows that hold
the key of the new row and appends the new row. -/

/-- Key of the unique index `block_pqxyz_idx` / `light_pqxyz_idx` (db.c:177,179). -/
def BlockRow.hasKey (r : BlockRow) (p q x y z : Int) : Bool :=
  decide (r.p = p ∧ r.q = q ∧ r.x = x ∧ r.y = y ∧ r.z = z)

/-- Key of the unique index `sign_xyzface_idx` (db.c:181). -/
def SignRow.hasKey (r : SignRow) (x y z face : Int) : Bool :=
  decide (r.x = x ∧ r.y = y ∧ r.z = z ∧ r.face = face)

/-- Embedding of `insert_block_query` and `insert_light_query` (db.c:183, 189). -/
def insert_block_query (rows : List BlockRow) (p q x y z w : Int) : List BlockRow :=
  rows.filter (fun r => !r.hasKey p q x y z) ++ [{ p := p, q := q, x := x, y := y, z := z, w := w }]

/-- Embedding of `set_key_query` (db.c:211), unique index `key_pq_idx` on `(p, q)`. -/
def set_key_query (rows : List KeyRow) (p q key : Int) : List KeyRow :=
  rows.filter (fun r => !decide (r.p = p ∧ r.q = q)) ++ [{ p := p, q := q, key := key }]

/-- Embedding of `insert_item_query` (db.c:186), unique index `items_id_idx` on `(id)`. -/
def insert_item_query (rows : List ItemRow) (id : Int) (name : String) : List ItemRow :=
  rows.filter (fun r => !decide (r.id = id)) ++ [{ id := id, name := name }]

/-- Embedding of `insert_sign_query` (db.c:192). -/
def insert_sign_query (rows : List SignRow) (p q x y z face : Int) (text : String) :
    List SignRow :=
  rows.filter (fun r => !r.hasKey x y z face) ++
    [{ p := p, q := q, x := x, y := y, z := z, face := face, text := text }]

/-- Embedding of `delete_sign_query` (db.c:195). -/
def delete_sign_query (rows : List SignRow) (x y z face : Int) : List SignRow :=
  rows.filter (fun r => !r.hasKey x y z face)

/-- Embedding of `load_blocks_query` (db.c:199): the rows of chunk `(p, q)`. -/
def load_blocks_query (rows : List BlockRow) (p q : Int) : List BlockRow :=
  rows.filter (fun r => decide (r.p = p ∧ r.q = q))

/-- Embedding of `check_item_exists_query` (db.c:201): one result row per row with the name. -/
def check_item_exists_query (rows : List ItemRow) (name : String) : List ItemRow :=
  rows.filter (fun r => decide (r.name = name))

/-! ## Writes applied by the worker (db.c:291, 472, 493, 646) -/

/-- Embedding of `_db_commit` (db.c:291): `commit; begin;`. -/
def _db_commit (db : Db) : Db :=
  { committed := db.txn, txn := db.txn }

/-- Embedding of `_db_insert_block` (db.c:472). -/
def _db_insert_block (db : Db) (p q x y z w : Int) : Db :=
  { db with txn := { db.txn with block := insert_block_query db.txn.block p q x y z w } }

/-- Embedding of `_db_insert_light` (db.c:493). -/
def _db_insert_light (db : Db) (p q x y z w : Int) : Db :=
  { db with txn := { db.txn with light := insert_block_query db.txn.light p q x y z w } }

/-- Embedding of `_db_set_key` (db.c:646). -/
def _db_set_key (db : Db) (p q key : Int) : Db :=
  { db with txn := { db.txn with key := set_key_query db.txn.key p q key } }

/-! ## Command queue and worker (db.c:281-289, 424-432, 483-491, 636-708) -/

/-- Modelled from the spec: `ring_put_block`, `ring_put_light`, `ring_put_key`,
`ring_put_commit`, `ring_put_exit` and `ring_get` are declared in ring.h, which
is not part of the sources at hand. The queue is FIFO with no reordering and no
deduplication: a put appends the command at the back. -/
def ring_put (ring : List RingEntry) (e : RingEntry) : List RingEntry :=
  ring ++ [e]

/-- Embedding of `db_commit` (db.c:281). -/
def db_commit (st : DbState) : DbState :=
  if !st.db_enabled then st
  else { st with ring := ring_put st.ring { type := RingEntryType.COMMIT } }

/-- Embedding of `db_insert_block` (db.c:424). -/
def db_insert_block (st : DbState) (p q x y z w : Int) : DbState :=
  if !st.db_enabled then st
  else
    let e : RingEntry := { type := RingEntryType.BLOCK, p := p, q := q, x := x, y := y, z := z, w := w }
    { st with ring := ring_put st.ring e }

/-- Embedding of `db_insert_light` (db.c:483). -/
def db_insert_light (st : DbState) (p q x y z w : Int) : DbState :=
  if !st.db_enabled then st
  else
    let e : RingEntry := { type := RingEntryType.LIGHT, p := p, q := q, x := x, y := y, z := z, w := w }
    { st with ring := ring_put st.ring e }

/-- Embedding of `db_set_key` (db.c:636). -/
def db_set_key (st : DbState) (p q key : Int) : DbState :=
  if !st.db_enabled then st
  else
    let e : RingEntry := { type := RingEntryType.KEY, p := p, q := q, key := key }
    { st with ring := ring_put st.ring e }

/-- The loop of `db_worker_run` (db.c:682-706) on the connection and the queue
content. The front command is dequeued and dispatched on its type; `EXIT`
clears `running` and the function returns 0. On an empty queue the worker
stays in `cnd_wait` and has not returned: the return value is `none`. The
result carries the connection, the commands left in the queue and the return
value. -/
def db_worker_loop : Db → List RingEntry → Db × List RingEntry × Option Int
  | db, [] => (db, [], none)
  | db, e :: rest =>
    match e.type with
    | RingEntryType.BLOCK => db_worker_loop (_db_insert_block db e.p e.q e.x e.y e.z e.w) rest
    | RingEntryType.LIGHT => db_worker_loop (_db_insert_light db e.p e.q e.x e.y e.z e.w) rest
    | RingEntryType.KEY => db_worker_loop (_db_set_key db e.p e.q e.key) rest
    | RingEntryType.COMMIT => db_worker_loop (_db_commit db) rest
    | RingEntryType.EXIT => (db, rest, some 0)

/-- Embedding of `db_worker_run` (db.c:680) on the globals: the state it leaves and its
return value (`none` while it is still waiting for a command). -/
def db_worker_run (st : DbState) : DbState × Option Int :=
  let r := db_worker_loop st.db st.ring
  ({ st with db := r.1, ring := r.2.1 }, r.2.2)

/-- Embedding of `db_worker_stop` (db.c:665): `EXIT` is enqueued and `thrd_join` waits for
`db_worker_run` to return; `none` when it never returns. `ring_free` then
releases the queue. -/
def db_worker_stop (st : DbState) : Option DbState :=
  if !st.db_enabled then some st
  else
    let st1 := { st with ring := ring_put st.ring { type := RingEntryType.EXIT } }
    match db_worker_run st1 with
    | (_, none) => none
    | (st2, some _) => some { st2 with ring := [] }

/-- Embedding of `db_close` (db.c:259): the worker is stopped, then `commit;` makes the open
transaction durable. -/
def db_close (st : DbState) : Option DbState :=
  if !st.db_enabled then some st
  else
    match db_worker_stop st with
    | none => none
    | some st1 => some { st1 with db := { committed := st1.db.txn, txn := st1.db.txn } }

/-- A command that writes a row: `BLOCK`, `LIGHT` or `KEY`. -/
def RingEntry.isWrite (e : RingEntry) : Bool :=
  decide (e.type = RingEntryType.BLOCK ∨ e.type = RingEntryType.LIGHT ∨
    e.type = RingEntryType.KEY)

/-- Reference semantics of one write command on the table content: the
statement of its kind executed with its arguments. -/
def apply_write (t : Tables) (e : RingEntry) : Tables :=
  match e.type with
  | RingEntryType.BLOCK => { t with block := insert_block_query t.block e.p e.q e.x e.y e.z e.w }
  | RingEntryType.LIGHT => { t with light := insert_block_query t.light e.p e.q e.x e.y e.z e.w }
  | RingEntryType.KEY => { t with key := set_key_query t.key e.p e.q e.key }
  | _ => t

/-- Reference semantics of a sequence of writes: each applied in list order. -/
def apply_writes (t : Tables) (es : List RingEntry) : Tables :=
  es.foldl apply_write t

/-! ## Persisted items (db.c:434-470, 569-585) -/

/-- Embedding of `db_item_exists` (db.c:434): `exists` starts false and is set from column 0
of every result row, which is the constant 1. There is no `db_enabled` test. -/
def db_item_exists (st : DbState) (name : String) : Bool :=
  (check_item_exists_query st.db.txn.items name).foldl (fun _ _ => decide ((1 : Int) ≠ 0)) false

/-- The body of `db_insert_item` between its `db_enabled` test and its call of
`_recalc_db_item_caches` (db.c:452-468): the state in which the rebuild is
called. The new id is the `int` sum `last_db_item_id + 1`. `SGLIB_LIST_ADD`
links the new node at the head of `db_items`; the node keeps the caller's name
pointer. -/
def db_insert_item_records (st : DbState) (name : String) : DbState :=
  if !db_item_exists st name then
    let new_db_item_id := int_wrap (st.last_db_item_id + 1)
    let sa : DbState :=
      { st with db := { st.db with txn :=
          { st.db.txn with items := insert_item_query st.db.txn.items new_db_item_id name } } }
    let sb : DbState :=
      { sa with db_items := { name := some name, id := new_db_item_id } :: sa.db_items }
    _recalc_last_db_item_id sb
  else st

/-- Embedding of `db_insert_item` (db.c:448). The first parameter of the C function, `id`,
is not used by its body. -/
def db_insert_item (st : DbState) (_id : Int) (name : String) : Option DbState :=
  if !st.db_enabled then some st
  else _recalc_db_item_caches (db_insert_item_records st name)

/-- The loop of `db_load_items` (db.c:576-581): every row is linked at the head
of the list built so far. The node keeps the pointer `sqlite3_column_text`
returned for the row (db.c:579), which the next `sqlite3_step` releases; the
loop ends with a `sqlite3_step`, so after the loop every name is dangling. -/
def load_items_loop : List ItemRow → List db_item_list → List db_item_list
  | [], acc => acc
  | row :: rest, acc => load_items_loop rest ({ name := none, id := row.id } :: acc)

/-- The body of `db_load_items` between its `db_enabled` test and its call of
`_recalc_db_item_caches` (db.c:573-583): the state in which the rebuild is
called. -/
def db_load_items_records (st : DbState) : DbState :=
  _recalc_last_db_item_id { st with db_items := load_items_loop st.db.txn.items [] }

/-- Embedding of `db_load_items` (db.c:569). -/
def db_load_items (st : DbState) : Option DbState :=
  if !st.db_enabled then some st
  else _recalc_db_item_caches (db_load_items_records st)

/-- A sequence of `db_insert_item` calls, each given by its arguments
`(id, name)`, run one after the other. -/
def db_insert_items (st : DbState) : List (Int × String) → Option DbState
  | [] => some st
  | c :: rest =>
    match db_insert_item st c.1 c.2 with
    | none => none
    | some st1 => db_insert_items st1 rest

/-- The bodies of a sequence of `db_insert_item` calls before their rebuilds
(see `db_insert_item_records`), for the names of the calls. The rebuild changes
the two arrays only and these bodies do not read the arrays. -/
def db_insert_items_records (st : DbState) : List String → DbState
  | [] => st
  | name :: rest => db_insert_items_records (db_insert_item_records st name) rest

/-- The maximum id of a list of persisted records; `none` when there are none.
This is the reference the id assignment is compared with. -/
def max_db_item_id : List db_item_list → Option Int
  | [] => none
  | it :: rest =>
    match max_db_item_id rest with
    | none => some it.id
    | some m => some (max it.id m)

/-- The maximum id of the persisted records, or 0 when there are none. -/
def max_db_item_id_or_zero (l : List db_item_list) : Int :=
  (max_db_item_id l).getD 0

/-- The maximum of 0 and the ids of the persisted records. -/
def max_zero_db_item_id (l : List db_item_list) : Int :=
  max 0 (max_db_item_id_or_zero l)

/-- Consistency of the persisted item set on an engine in use: the ids in
`db_items` are those of table `items` (latest record first), they are pairwise
distinct, and `last_db_item_id` is the maximum of 0 and these ids. -/
def PersistedIdsOk (st : DbState) : Prop :=
  st.db_items.map (fun it => it.id) = (st.db.txn.items.map (fun r => r.id)).reverse ∧
  (st.db_items.map (fun it => it.id)).Nodup ∧
  st.last_db_item_id = max_zero_db_item_id st.db_items

/-! ## Signs (db.c:504-531) -/

/-- Embedding of `db_insert_sign` (db.c:504). -/
def db_insert_sign (st : DbState) (p q x y z face : Int) (text : String) : DbState :=
  if !st.db_enabled then st
  else { st with db := { st.db with txn :=
          { st.db.txn with sign := insert_sign_query st.db.txn.sign p q x y z face text } } }

/-- Embedding of `db_delete_sign` (db.c:521). -/
def db_delete_sign (st : DbState) (x y z face : Int) : DbState :=
  if !st.db_enabled then st
  else { st with db := { st.db with txn :=
          { st.db.txn with sign := delete_sign_query st.db.txn.sign x y z face } } }

/-- The statement `delete_signs_query` (db.c:197): the rows at `(x, y, z)`
are deleted, whatever their face. -/
def delete_signs_query (rows : List SignRow) (x y z : Int) : List SignRow :=
  rows.filter (fun r => !decide (r.x = x ∧ r.y = y ∧ r.z = z))

/-- Embedding of `db_delete_signs` (db.c:533). -/
def db_delete_signs (st : DbState) (x y z : Int) : DbState :=
  if !st.db_enabled then st
  else { st with db := { st.db with txn :=
          { st.db.txn with sign := delete_signs_query st.db.txn.sign x y z } } }

/-! ## Player state (db.c:385-422) -/

/-- The statement `delete from state;` (db.c:392). -/
def delete_state_query (_rows : List StateRow) : List StateRow :=
  []

/-- The statement `insert into state (x, y, z, rx, ry) values (?, ?, ?, ?, ?);`
(db.c:390) with the five values bound by `sqlite3_bind_double`. Table `state`
has no unique index: the row is appended. SQLite binds a NaN as NULL and the
five columns are `not null` (db.c:137-141), so with a NaN among the values the
statement fails and the table is left as it was. -/
def insert_state_query (rows : List StateRow) (x y z rx ry : CFloat) : List StateRow :=
  if StateRow.hasNaN { x := x, y := y, z := z, rx := rx, ry := ry } then rows
  else rows ++ [{ x := x, y := y, z := z, rx := rx, ry := ry }]

/-- Embedding of `db_save_state` (db.c:385): the table is cleared, then the row
is inserted; the result of `sqlite3_step` is dropped (db.c:399). -/
def db_save_state (st : DbState) (x y z rx ry : CFloat) : DbState :=
  if !st.db_enabled then st
  else { st with db := { st.db with txn :=
          { st.db.txn with state :=
              insert_state_query (delete_state_query st.db.txn.state) x y z rx ry } } }

/-- Embedding of `db_load_state` (db.c:403). The second argument holds the
values behind the five output pointers at the call; the result is the return
value and the values behind the pointers at the return. Only the first row of
`select x, y, z, rx, ry from state;` is fetched. -/
def db_load_state (st : DbState) (out : StateRow) : Int × StateRow :=
  if !st.db_enabled then (0, out)
  else
    match st.db.txn.state with
    | [] => (0, out)
    | row :: _ => (1, { x := row.x, y := row.y, z := row.z, rx := row.rx, ry := row.ry })

/-- A sequence of `db_save_state` calls, each given by its five arguments, run
one after the other. -/
def db_save_states (st : DbState) : List StateRow → DbState
  | [] => st
  | a :: rest => db_save_states (db_save_state st a.x a.y a.z a.rx a.ry) rest

/-! ## Block load (db.c:551-567) -/

/-- Entry of a chunk map: position and value. -/
structure MapEntry where
  x : Int := 0
  y : Int := 0
  z : Int := 0
  w : Int := 0
deriving DecidableEq, Repr

/-- Modelled from the spec: `Map`, `map_set` and `map_get` belong to map.h,
which is not part of the sources at hand. A map holds one value per position;
`map_set` makes `w` the value at `(x, y, z)`, replacing an earlier one. -/
def map_set (m : List MapEntry) (x y z w : Int) : List MapEntry :=
  { x := x, y := y, z := z, w := w } ::
    m.filter (fun e => !decide (e.x = x ∧ e.y = y ∧ e.z = z))

/-- Modelled from the spec: the value a map holds at `(x, y, z)`, 0 when it
holds none (see `map_set`). -/
def map_get (m : List MapEntry) (x y z : Int) : Int :=
  match m.find? (fun e => decide (e.x = x ∧ e.y = y ∧ e.z = z)) with
  | some e => e.w
  | none => 0

/-- Embedding of `db_load_blocks` (db.c:551): `map_set` for every row of the chunk, in row
order. -/
def db_load_blocks (st : DbState) (map : List MapEntry) (p q : Int) : List MapEntry :=
  if !st.db_enabled then map
  else (load_blocks_query st.db.txn.block p q).foldl (fun m r => map_set m r.x r.y r.z r.w) map

/-! ## Concrete engine states -/

/-- An enabled engine on which `db_insert_item` ran for `grass` and then for
`sand`: two persisted records, both registered, their names live, and a third
registered item without a record. -/
def craft_ex : DbState :=
  { db_enabled := true,
    db := { committed := { items := [{ id := 1, name := "grass" }, { id := 2, name := "sand" }] },
            txn := { items := [{ id := 1, name := "grass" }, { id := 2, name := "sand" }] } },
    db_items := [{ name := some "sand", id := 2 }, { name := some "grass", id := 1 }],
    last_db_item_id := 2,
    items := [{ name := "sand", id := 1 }, { name := "grass", id := 2 },
              { name := "stone", id := 3 }],
    last_item_id := 3 }

/-- The state `craft_ex` after `_recalc_db_item_caches`. -/
def craft_ex_after : DbState :=
  { craft_ex with _db_to_id := [0, 2, 1], _id_to_db := [0, 2, 1, 0] }

/-- The tables and the registry of `craft_ex` on an engine before its load:
`db_items` is still empty. -/
def craft_ex_unloaded : DbState :=
  { craft_ex with db_items := [], last_db_item_id := 0 }

/-- The state `craft_ex_unloaded` after `db_load_items`: the names of the
loaded nodes are dangling and no record is matched with its item. -/
def craft_ex_reloaded : DbState :=
  { craft_ex with
    db_items := [{ name := none, id := 2 }, { name := none, id := 1 }],
    last_db_item_id := 2,
    _db_to_id := [0, 0, 0],
    _id_to_db := [1, 0, 0, 0] }

/-- The state `craft_ex_reloaded` after `db_insert_item` for `stone`. -/
def craft_ex_stone : DbState :=
  { craft_ex with
    db := { committed := craft_ex.db.committed,
            txn := { items := [{ id := 1, name := "grass" }, { id := 2, name := "sand" },
                               { id := 3, name := "stone" }] } },
    db_items := [{ name := some "stone", id := 3 }, { name := none, id := 2 },
                 { name := none, id := 1 }],
    last_db_item_id := 3,
    _db_to_id := [0, 0, 0, 3],
    _id_to_db := [1, 0, 0, 3] }

/-- An enabled engine before its load whose table `items` holds one row with a
negative id. -/
def craft_neg_unloaded : DbState :=
  { db_enabled := true,
    db := { committed := { items := [{ id := -5, name := "a" }] },
            txn := { items := [{ id := -5, name := "a" }] } } }

/-- An enabled engine before its load whose table `items` holds one row with
the id `INT_MAX`. -/
def craft_max_unloaded : DbState :=
  { db_enabled := true,
    db := { committed := { items := [{ id := 2147483647, name := "a" }] },
            txn := { items := [{ id := 2147483647, name := "a" }] } } }

/-- An engine whose only persisted record has the id `INT_MAX`, with
`last_db_item_id` computed from it. -/
def craft_int_max : DbState :=
  { db_enabled := true,
    db_items := [{ name := some "grass", id := 2147483647 }],
    last_db_item_id := 2147483647,
    items := [{ name := "grass", id := 1 }],
    last_item_id := 1 }

/-- An engine whose only registered item has the runtime id `UINT_MAX`, with
`last_item_id` equal to it. -/
def craft_uint_max : DbState :=
  { db_enabled := true,
    db_items := [{ name := some "grass", id := 1 }],
    last_db_item_id := 1,
    items := [{ name := "grass", id := 4294967295 }],
    last_item_id := 4294967295 }

/-- An engine whose only registered item has a runtime id above `INT_MAX`, with
`last_item_id` equal to it. -/
def craft_big_id : DbState :=
  { db_enabled := true,
    db_items := [{ name := some "grass", id := 1 }],
    last_db_item_id := 1,
    items := [{ name := "grass", id := 3000000000 }],
    last_item_id := 3000000000 }

/-- An enabled engine before its load whose table `items` holds the row
`(1, ghost)`, a name the registry does not hold; the registry holds `grass`
with runtime id 1. -/
def craft_ghost_unloaded : DbState :=
  { db_enabled := true,
    db := { committed := { items := [{ id := 1, name := "ghost" }] },
            txn := { items := [{ id := 1, name := "ghost" }] } },
    items := [{ name := "grass", id := 1 }],
    last_item_id := 1 }

/-- The state `craft_ghost_unloaded` after `db_load_items`. -/
def craft_ghost_after : DbState :=
  { craft_ghost_unloaded with
    db_items := [{ name := none, id := 1 }],
    last_db_item_id := 1,
    _db_to_id := [0, 0],
    _id_to_db := [1, 0] }

/-- An enabled engine with an empty table `items` and `grass` registered with
runtime id 1. -/
def craft_ghost_empty : DbState :=
  { db_enabled := true,
    items := [{ name := "grass", id := 1 }],
    last_item_id := 1 }

/-- The state `craft_ghost_empty` after `db_insert_item` for `ghost`. -/
def craft_ghost_inserted : DbState :=
  { craft_ghost_empty with
    db := { txn := { items := [{ id := 1, name := "ghost" }] } },
    db_items := [{ name := some "ghost", id := 1 }],
    last_db_item_id := 1,
    _db_to_id := [0, 0],
    _id_to_db := [1, 0] }

/-- An engine that was used and then disabled with `db_disable`. -/
def craft_disabled : DbState :=
  { db_enabled := false,
    db := { committed := { items := [{ id := 1, name := "grass" }] },
            txn := { items := [{ id := 1, name := "grass" }] } },
    db_items := [{ name := some "grass", id := 1 }],
    last_db_item_id := 1,
    _db_to_id := [0, 1],
    _id_to_db := [0, 1],
    items := [{ name := "grass", id := 1 }],
    last_item_id := 1 }

/-- A player position and view direction. -/
def craft_pose_a : StateRow :=
  { x := CFloat.value 1, y := CFloat.value 2, z := CFloat.value 3,
    rx := CFloat.value 4, ry := CFloat.value 5 }

/-- A later player position and view direction. -/
def craft_pose_b : StateRow :=
  { x := CFloat.value 6, y := CFloat.value 7, z := CFloat.value 8,
    rx := CFloat.value 9, ry := CFloat.value 10 }

/-- The arguments of a save whose `x` is a NaN. -/
def craft_pose_nan : StateRow :=
  { x := CFloat.nan, y := CFloat.value 2, z := CFloat.value 3,
    rx := CFloat.value 4, ry := CFloat.value 5 }

/-- An enabled engine whose table `state` holds the row of an earlier save. -/
def craft_saved : DbState :=
  { db_enabled := true,
    db := { committed := { state := [craft_pose_a] }, txn := { state := [craft_pose_a] } } }

/-- An enabled engine with three signs: two faces of the block at `(1, 2, 3)`
and one at `(9, 9, 9)`. -/
def craft_signs : DbState :=
  { db_enabled := true,
    db := { txn := { sign :=
      [{ p := 0, q := 0, x := 1, y := 2, z := 3, face := 0, text := "a" },
       { p := 0, q := 0, x := 1, y := 2, z := 3, face := 1, text := "b" },
       { p := 0, q := 0, x := 9, y := 9, z := 9, face := 0, text := "c" }] } } }

/-- A queued block insert. -/
def craft_block_entry : RingEntry :=
  { type := RingEntryType.BLOCK, p := 1, q := 2, x := 3, y := 4, z := 5, w := 6 }

/-- A queued light insert. -/
def craft_light_entry : RingEntry :=
  { type := RingEntryType.LIGHT, p := 1, q := 2, x := 3, y := 4, z := 5, w := 15 }

/-- A queued key update. -/
def craft_key_entry : RingEntry :=
  { type := RingEntryType.KEY, p := 1, q := 2, key := 7 }

/-- The command `db_commit` enqueues. -/
def craft_commit_entry : RingEntry :=
  { type := RingEntryType.COMMIT }

/-- The command `db_worker_stop` enqueues. -/
def craft_exit_entry : RingEntry :=
  { type := RingEntryType.EXIT }

/-! ## Array writes and the cache rebuild -/

/-- A run of array writes: lengths are kept. -/
theorem foldl_set_length (ws : List (Nat × Int)) (a : List Int) :
    (ws.foldl (fun acc w => acc.set w.1 w.2) a).length = a.length := by
  induction ws generalizing a with
  | nil => rfl
  | cons w ws ih => simp [List.foldl_cons, ih]

theorem foldl_set_frame (ws : List (Nat × Int)) (a : List Int) (j : Nat)
    (h : ∀ w ∈ ws, w.1 ≠ j) :
    (ws.foldl (fun acc w => acc.set w.1 w.2) a)[j]? = a[j]? := by
  induction ws generalizing a with
  | nil => rfl
  | cons w ws ih =>
    have hw : w.1 ≠ j := h w (List.mem_cons_self _ _)
    rw [List.foldl_cons, ih _ (fun w1 h1 => h w1 (List.mem_cons_of_mem _ h1))]
    exact List.getElem?_set_ne hw

theorem foldl_set_value (ws : List (Nat × Int)) (a : List Int) (j : Nat) (v : Int)
    (hsrc : a[j]? = some v ∨ ∃ w ∈ ws, w.1 = j)
    (hlen : ∀ w ∈ ws, w.1 < a.length)
    (hval : ∀ w ∈ ws, w.1 = j → w.2 = v) :
    (ws.foldl (fun acc w => acc.set w.1 w.2) a)[j]? = some v := by
  induction ws generalizing a with
  | nil =>
    rcases hsrc with h | ⟨w, hw, _⟩
    · exact h
    · cases hw
  | cons w ws ih =>
    rw [List.foldl_cons]
    have hwlen : w.1 < a.length := hlen w (List.mem_cons_self _ _)
    apply ih
    · by_cases hj : w.1 = j
      · left
        have hv : w.2 = v := hval w (List.mem_cons_self _ _) hj
        subst hj
        rw [List.getElem?_set_self hwlen, hv]
      · rcases hsrc with h | ⟨w1, hw1, hj1⟩
        · left
          rw [List.getElem?_set_ne hj]
          exact h
        · rcases List.mem_cons.mp hw1 with rfl | hmem
          · exact absurd hj1 hj
          · right
            exact ⟨w1, hmem, hj1⟩
    · intro w1 h1
      rw [List.length_set]
      exact hlen w1 (List.mem_cons_of_mem _ h1)
    · intro w1 h1
      exact hval w1 (List.mem_cons_of_mem _ h1)

/-- The pair of writes `_recalc_db_item_caches` performs for one node. -/
theorem array_store_some {a b : List Int} {i v : Int} (h : array_store a i v = some b) :
    0 ≤ i ∧ i < (a.length : Int) ∧ b = a.set i.toNat v := by
  unfold array_store at h
  split at h
  · rename_i hc
    exact ⟨hc.1, hc.2, (Option.some.inj h).symm⟩
  · cases h

theorem recalc_caches_loop_spec (items : List item_list) (l : List db_item_list)
    (a b a1 b1 : List Int) (h : recalc_caches_loop items l a b = some (a1, b1)) :
    (∀ it ∈ l, (0 ≤ it.id ∧ it.id < (a.length : Int)) ∧
      (0 ≤ cache_item_id items it.name ∧ cache_item_id items it.name < (b.length : Int))) ∧
    a1 = (l.map (fun it => (it.id.toNat, cache_item_id items it.name))).foldl
      (fun acc w => acc.set w.1 w.2) a ∧
    b1 = (l.map (fun it => ((cache_item_id items it.name).toNat, it.id))).foldl
      (fun acc w => acc.set w.1 w.2) b := by
  induction l generalizing a b with
  | nil =>
    simp only [recalc_caches_loop, Option.some.injEq, Prod.mk.injEq] at h
    simp [h.1, h.2]
  | cons it rest ih =>
    simp only [recalc_caches_loop] at h
    split at h
    · cases h
    · rename_i a2 ha
      split at h
      · cases h
      · rename_i b2 hb
        obtain ⟨h0, h1, rfl⟩ := array_store_some ha
        obtain ⟨g0, g1, rfl⟩ := array_store_some hb
        obtain ⟨ihb, iha1, ihb1⟩ := ih _ _ h
        refine ⟨?_, ?_, ?_⟩
        · intro it1 hit1
          rcases List.mem_cons.mp hit1 with rfl | hmem
          · exact ⟨⟨h0, h1⟩, ⟨g0, g1⟩⟩
          · simpa [List.length_set] using ihb it1 hmem
        · simpa using iha1
        · simpa using ihb1

theorem cache_item_id_dangling (items : List item_list) :
    cache_item_id items none = 0 := rfl

theorem cache_item_id_of_get {items : List item_list} {name : String} {item : item_list}
    (h : get_item_by_name items name = some item) :
    cache_item_id items (some name) = int_wrap (item.id : Int) := by
  simp [cache_item_id, h]

theorem cache_item_id_of_none {items : List item_list} {name : String}
    (h : get_item_by_name items name = none) :
    cache_item_id items (some name) = 0 := by
  simp [cache_item_id, h]

/-- The conversion of an `unsigned int` of at most `INT_MAX` to `int` keeps the
value. -/
theorem int_wrap_of_le (n : Nat) (h : (n : Int) ≤ INT_MAX) : int_wrap (n : Int) = (n : Int) := by
  simp only [INT_MAX] at h
  simp only [int_wrap]
  omega

/-- The `int` sum `v + 1` is the mathematical sum when `v` is an `int` below
`INT_MAX`. -/
theorem int_wrap_succ (v : Int) (h0 : -2147483649 ≤ v) (h : v < INT_MAX) :
    int_wrap (v + 1) = v + 1 := by
  simp only [INT_MAX] at h
  simp only [int_wrap]
  omega

/-- What a successful `_recalc_db_item_caches` leaves: only the two arrays
change, every write was inside the allocated blocks, and the arrays are the
zeroed blocks after the writes of the loop in list order. -/
theorem recalc_db_item_caches_spec {st st1 : DbState}
    (h : _recalc_db_item_caches st = some st1) :
    (∀ it ∈ st.db_items,
      (0 ≤ it.id ∧ it.id < ((int_wrap (st.last_db_item_id + 1)).toNat : Int)) ∧
      (0 ≤ cache_item_id st.items it.name ∧
        cache_item_id st.items it.name < ((uint_wrap (st.last_item_id + 1) : Nat) : Int))) ∧
    st1 = { st with
      _db_to_id := (st.db_items.map (fun it => (it.id.toNat, cache_item_id st.items it.name))).foldl
        (fun acc w => acc.set w.1 w.2)
        (List.replicate (int_wrap (st.last_db_item_id + 1)).toNat (0 : Int)),
      _id_to_db := (st.db_items.map (fun it => ((cache_item_id st.items it.name).toNat, it.id))).foldl
        (fun acc w => acc.set w.1 w.2)
        (List.replicate (uint_wrap (st.last_item_id + 1)) (0 : Int)) } := by
  unfold _recalc_db_item_caches at h
  simp only at h
  split at h
  · cases h
  · rename_i a b hl
    obtain ⟨hb, ha1, hb1⟩ := recalc_caches_loop_spec _ _ _ _ _ _ hl
    refine ⟨?_, ?_⟩
    · intro it hit
      have := hb it hit
      simpa only [List.length_replicate] using this
    · rw [← ha1, ← hb1]
      exact (Option.some.inj h).symm

/-- After a rebuild, the persisted id of a node maps to the runtime id chosen
for it, when every node with the same persisted id chose the same runtime id. -/
theorem item_db_to_id_after_recalc {st st1 : DbState}
    (h : _recalc_db_item_caches st = some st1) (h0 : 0 ≤ st.last_db_item_id)
    (r : db_item_list) (hr : r ∈ st.db_items)
    (hsame : ∀ r1 ∈ st.db_items, r1.id = r.id →
      cache_item_id st.items r1.name = cache_item_id st.items r.name) :
    item_db_to_id st1 r.id.toNat = some (cache_item_id st.items r.name) := by
  obtain ⟨hb, rfl⟩ := recalc_db_item_caches_spec h
  obtain ⟨⟨r0, r1⟩, _⟩ := hb r hr
  have hle : ((r.id.toNat : Nat) : Int) ≤ st.last_db_item_id := by
    simp only [int_wrap] at r1
    omega
  simp only [item_db_to_id, hle, if_true]
  apply foldl_set_value
  · right
    exact ⟨(r.id.toNat, cache_item_id st.items r.name),
      List.mem_map.mpr ⟨r, hr, rfl⟩, rfl⟩
  · intro w hw
    obtain ⟨it, hit, rfl⟩ := List.mem_map.mp hw
    obtain ⟨⟨i0, i1⟩, _⟩ := hb it hit
    simp only [List.length_replicate]
    omega
  · intro w hw hj
    obtain ⟨it, hit, rfl⟩ := List.mem_map.mp hw
    obtain ⟨⟨i0, i1⟩, _⟩ := hb it hit
    simp only at hj
    exact hsame it hit (by omega)

/-- After a rebuild, the runtime id chosen for a node maps back to its
persisted id, when every node that chose the same runtime id has the same
persisted id. -/
theorem item_id_to_db_after_recalc {st st1 : DbState}
    (h : _recalc_db_item_caches st = some st1) (r : db_item_list) (hr : r ∈ st.db_items)
    (hsame : ∀ r1 ∈ st.db_items,
      cache_item_id st.items r1.name = cache_item_id st.items r.name → r1.id = r.id) :
    item_id_to_db st1 (cache_item_id st.items r.name).toNat = some r.id := by
  obtain ⟨hb, rfl⟩ := recalc_db_item_caches_spec h
  obtain ⟨_, r3, r2⟩ := hb r hr
  have hle : (cache_item_id st.items r.name).toNat ≤ st.last_item_id := by
    simp only [uint_wrap] at r2
    omega
  simp only [item_id_to_db, hle, if_true]
  apply foldl_set_value
  · right
    exact ⟨((cache_item_id st.items r.name).toNat, r.id),
      List.mem_map.mpr ⟨r, hr, rfl⟩, rfl⟩
  · intro w hw
    obtain ⟨it, hit, rfl⟩ := List.mem_map.mp hw
    obtain ⟨_, i3, i2⟩ := hb it hit
    simp only [List.length_replicate]
    omega
  · intro w hw hj
    obtain ⟨it, hit, rfl⟩ := List.mem_map.mp hw
    obtain ⟨_, i3, _⟩ := hb it hit
    simp only at hj
    exact hsame it hit (by omega)

theorem get_item_by_name_some {items : List item_list} {name : String} {item : item_list}
    (h : get_item_by_name items name = some item) : item ∈ items ∧ item.name = name := by
  unfold get_item_by_name at h
  exact ⟨List.mem_of_find?_eq_some h, by simpa using List.find?_some h⟩

theorem get_item_by_name_of_mem {items : List item_list} {item : item_list}
    (hmem : item ∈ items) :
    ∃ found, get_item_by_name items item.name = some found := by
  cases hg : get_item_by_name items item.name with
  | some found => exact ⟨found, rfl⟩
  | none =>
    unfold get_item_by_name at hg
    have := List.find?_eq_none.mp hg item hmem
    simp at this

/-- Both lookups at a persisted node whose name is live and registered, when
names and ids are unique on both sides, no runtime id is 0 and the ids are in
the range of `int`. -/
theorem remap_pair {st st1 : DbState}
    (hrun : _recalc_db_item_caches st = some st1) (h0 : 0 ≤ st.last_db_item_id)
    (hdb_id : (st.db_items.map (fun r => r.id)).Nodup)
    (hdb_name : (st.db_items.map (fun r => r.name)).Nodup)
    (hreg_id : (st.items.map (fun i => i.id)).Nodup)
    (hreg_pos : ∀ i ∈ st.items, i.id ≠ 0)
    (hreg_int : ∀ i ∈ st.items, (i.id : Int) ≤ INT_MAX)
    (r : db_item_list) (hr : r ∈ st.db_items) (s : String) (hs : r.name = some s)
    (item : item_list) (hget : get_item_by_name st.items s = some item) :
    item_db_to_id st1 r.id.toNat = some (item.id : Int) ∧
    item_id_to_db st1 item.id = some r.id := by
  obtain ⟨hitem, hname⟩ := get_item_by_name_some hget
  have hcid : cache_item_id st.items r.name = (item.id : Int) := by
    rw [hs, cache_item_id_of_get hget, int_wrap_of_le _ (hreg_int item hitem)]
  constructor
  · rw [← hcid]
    apply item_db_to_id_after_recalc hrun h0 r hr
    intro r1 hr1 hid
    rw [List.inj_on_of_nodup_map hdb_id hr1 hr hid]
  · have h2 := item_id_to_db_after_recalc hrun r hr (by
      intro r1 hr1 hc
      rw [hcid] at hc
      have hpos : (item.id : Int) ≠ 0 := by exact_mod_cast hreg_pos item hitem
      cases hn1 : r1.name with
      | none =>
        rw [hn1, cache_item_id_dangling] at hc
        exact absurd hc.symm hpos
      | some s1 =>
        rw [hn1] at hc
        cases hg1 : get_item_by_name st.items s1 with
        | none =>
          rw [cache_item_id_of_none hg1] at hc
          exact absurd hc.symm hpos
        | some i1 =>
          obtain ⟨hi1, hname1⟩ := get_item_by_name_some hg1
          rw [cache_item_id_of_get hg1, int_wrap_of_le _ (hreg_int i1 hi1)] at hc
          have hii : i1 = item :=
            List.inj_on_of_nodup_map hreg_id hi1 hitem (by exact_mod_cast hc)
          have hnn : r1.name = r.name := by rw [hn1, hs, ← hname1, hii, hname]
          rw [List.inj_on_of_nodup_map hdb_name hr1 hr hnn])
    rw [hcid] at h2
    simpa using h2

/-- The inverse law where the names are live. After `_recalc_db_item_caches` has
run without an out-of-bounds write on a state with `last_db_item_id` not
negative, persisted records with pairwise distinct ids and pairwise distinct
name pointers, and a registry with pairwise distinct names and pairwise
distinct runtime ids between 1 and `INT_MAX`: for every persisted record whose
name is live and registered `item_id_to_db (item_db_to_id pid) = pid`, and for
every registered item whose name is the live name of a persisted record
`item_db_to_id (item_id_to_db rid) = rid`. This is the state
`db_insert_item` leaves when every record was inserted in the running
session. -/
theorem remap_inverse_law (st st1 : DbState)
    (hrun : _recalc_db_item_caches st = some st1) (h0 : 0 ≤ st.last_db_item_id)
    (hdb_id : (st.db_items.map (fun r => r.id)).Nodup)
    (hdb_name : (st.db_items.map (fun r => r.name)).Nodup)
    (hreg_name : (st.items.map (fun i => i.name)).Nodup)
    (hreg_id : (st.items.map (fun i => i.id)).Nodup)
    (hreg_pos : ∀ i ∈ st.items, i.id ≠ 0)
    (hreg_int : ∀ i ∈ st.items, (i.id : Int) ≤ INT_MAX) :
    (∀ r ∈ st.db_items, (∃ i ∈ st.items, some i.name = r.name) →
      (item_db_to_id st1 r.id.toNat).bind (fun rid => item_id_to_db st1 rid.toNat)
        = some r.id) ∧
    (∀ i ∈ st.items, (∃ r ∈ st.db_items, r.name = some i.name) →
      (item_id_to_db st1 i.id).bind (fun pid => item_db_to_id st1 pid.toNat)
        = some (i.id : Int)) := by
  constructor
  · intro r hr ⟨i, hi, hin⟩
    obtain ⟨found, hget⟩ := get_item_by_name_of_mem hi
    obtain ⟨h1, h2⟩ := remap_pair hrun h0 hdb_id hdb_name hreg_id hreg_pos hreg_int r hr
      i.name hin.symm found hget
    rw [h1]
    simpa using h2
  · intro i hi ⟨r, hr, hrn⟩
    obtain ⟨found, hget⟩ := get_item_by_name_of_mem hi
    obtain ⟨hfound, hfn⟩ := get_item_by_name_some hget
    have hfi : found = i := List.inj_on_of_nodup_map hreg_name hfound hi hfn
    rw [hfi] at hget
    obtain ⟨h1, h2⟩ := remap_pair hrun h0 hdb_id hdb_name hreg_id hreg_pos hreg_int r hr
      i.name hrn i hget
    rw [h2]
    simpa using h1

/-! ## Id remapping: inverse law, range check, sentinel, disabled engine -/

/-- C1 (failing input). Table `items` holds `(1, grass)` and `(2, sand)`, the
registry holds `sand`, `grass` and `stone` with runtime ids 1, 2 and 3: names
and ids are unique on both sides. `db_load_items` completes, but the nodes keep
the name pointers of `sqlite3_column_text`, which dangle, so no record is
matched with its item: `_db_to_id` is all 0 and `_id_to_db[0]` holds 1. The
record `(2, sand)` goes to runtime id 0 and back to persisted id 1, not 2, and
the runtime id 1 of `sand` goes to persisted id 0 and back to runtime id 0, not
1. On the same records with live names, as `db_insert_item` leaves them
(`craft_ex`), the rebuild gives the inverse law: 2 goes to 1 and back to 2, and
1 goes to 2 and back to 1. -/
theorem reload_breaks_inverse_law :
    ((craft_ex_unloaded.db.txn.items.map (fun r => r.name)).Nodup ∧
      (craft_ex_unloaded.db.txn.items.map (fun r => r.id)).Nodup ∧
      (craft_ex_unloaded.items.map (fun i => i.name)).Nodup ∧
      (craft_ex_unloaded.items.map (fun i => i.id)).Nodup ∧
      ({ id := 2, name := "sand" } : ItemRow) ∈ craft_ex_unloaded.db.txn.items ∧
      ({ name := "sand", id := 1 } : item_list) ∈ craft_ex_unloaded.items) ∧
    db_load_items craft_ex_unloaded = some craft_ex_reloaded ∧
    ((item_db_to_id craft_ex_reloaded 2).bind
        (fun rid => item_id_to_db craft_ex_reloaded rid.toNat) = some 1 ∧
      (item_id_to_db craft_ex_reloaded 1).bind
        (fun pid => item_db_to_id craft_ex_reloaded pid.toNat) = some 0) ∧
    (_recalc_db_item_caches craft_ex = some craft_ex_after ∧
      (item_db_to_id craft_ex_after 2).bind
        (fun rid => item_id_to_db craft_ex_after rid.toNat) = some 2 ∧
      (item_id_to_db craft_ex_after 1).bind
        (fun pid => item_db_to_id craft_ex_after pid.toNat) = some 1) := by
  refine ⟨⟨by decide, by decide, by decide, by decide, by decide, by decide⟩, by decide,
    ⟨by decide, by decide⟩, ⟨by decide, by decide, by decide⟩⟩

/-- Instance of `remap_inverse_law` on `craft_ex`, whose names are live: `sand`
has persisted id 2 and runtime id 1, `grass` has persisted id 1 and runtime
id 2. -/
theorem remap_inverse_law_instance :
    _recalc_db_item_caches craft_ex = some craft_ex_after ∧
    (∀ r ∈ craft_ex.db_items, (∃ i ∈ craft_ex.items, some i.name = r.name) →
      (item_db_to_id craft_ex_after r.id.toNat).bind
        (fun rid => item_id_to_db craft_ex_after rid.toNat) = some r.id) ∧
    (∀ i ∈ craft_ex.items, (∃ r ∈ craft_ex.db_items, r.name = some i.name) →
      (item_id_to_db craft_ex_after i.id).bind
        (fun pid => item_db_to_id craft_ex_after pid.toNat) = some (i.id : Int)) :=
  ⟨by decide, remap_inverse_law craft_ex craft_ex_after (by decide) (by decide) (by decide)
    (by decide) (by decide) (by decide) (by decide) (by decide)⟩

/-- C2. Out-of-range lookup: for every id above `last_db_item_id`,
`item_db_to_id` returns 0, and for every id above `last_item_id`,
`item_id_to_db` returns 0, whatever the cache array holds (also when it is
`NULL` or too short): the array is not read and no access is out of bounds. -/
theorem lookup_out_of_range (st : DbState) (a : List Int) (id : Nat) :
    (st.last_db_item_id < (id : Int) →
      item_db_to_id { st with _db_to_id := a } id = some 0) ∧
    (st.last_item_id < id →
      item_id_to_db { st with _id_to_db := a } id = some 0) := by
  constructor
  · intro h
    simp [item_db_to_id, not_le.mpr h]
  · intro h
    simp [item_id_to_db, not_le.mpr h]

/-- Witness of `lookup_out_of_range` on `craft_ex_after` with ids 7 and 9 and
with empty arrays. -/
theorem lookup_out_of_range_witness :
    (craft_ex_after.last_db_item_id < ((7 : Nat) : Int) ∧
      item_db_to_id { craft_ex_after with _db_to_id := [] } 7 = some 0) ∧
    (craft_ex_after.last_item_id < 9 ∧
      item_id_to_db { craft_ex_after with _id_to_db := [] } 9 = some 0) :=
  ⟨⟨by decide, (lookup_out_of_range craft_ex_after [] 7).1 (by decide)⟩,
   ⟨by decide, (lookup_out_of_range craft_ex_after [] 9).2 (by decide)⟩⟩

/-- C3 (failing input). Table `items` holds `(1, ghost)`, the registry holds
only `grass` with runtime id 1 and `last_item_id` is 1. No registered item has
runtime id 0 and none is named `ghost`; `db_load_items` completes, a further
`_recalc_db_item_caches` completes with the same arrays, persisted id 1 maps to
0, and `_id_to_db[0]` holds 1: `item_id_to_db 0` is 1, not the sentinel 0. The
same holds without a load, when `db_insert_item` is called for `ghost` on an
engine with an empty table: the name is live and not registered, and
`item_id_to_db 0` is 1 again. -/
theorem sentinel_slot_overwritten :
    (∀ i ∈ craft_ghost_after.items, i.id ≠ 0 ∧ i.name ≠ "ghost") ∧
    db_load_items craft_ghost_unloaded = some craft_ghost_after ∧
    _recalc_db_item_caches craft_ghost_after = some craft_ghost_after ∧
    item_db_to_id craft_ghost_after 1 = some 0 ∧
    item_id_to_db craft_ghost_after 0 = some 1 ∧
    (∀ i ∈ craft_ghost_empty.items, i.id ≠ 0 ∧ i.name ≠ "ghost") ∧
    db_insert_item craft_ghost_empty 0 "ghost" = some craft_ghost_inserted ∧
    item_db_to_id craft_ghost_inserted 1 = some 0 ∧
    item_id_to_db craft_ghost_inserted 0 = some 1 := by
  refine ⟨by decide, by decide, by decide, by decide, by decide, by decide, by decide,
    by decide, by decide⟩

/-- C6 (failing input). On an engine that was used and then disabled,
`db_item_exists` still queries table `items` and returns true for a stored
name, and the two id lookups still return the cached ids; on an engine that was
never initialised `item_db_to_id 0` reads `_db_to_id[0]` through a `NULL`
pointer. -/
theorem disabled_engine_not_noop :
    craft_disabled.db_enabled = false ∧
    db_item_exists craft_disabled "grass" = true ∧
    item_db_to_id craft_disabled 1 = some 1 ∧
    item_id_to_db craft_disabled 1 = some 1 ∧
    item_db_to_id ({} : DbState) 0 = none ∧
    item_id_to_db ({} : DbState) 0 = none := by
  refine ⟨by decide, by decide, by decide, by decide, by decide, by decide⟩

/-! ## Worker: commit ordering and shutdown -/

/-- The worker on a queue that starts with write commands: it applies them to
the open transaction in queue order, leaves the durable content alone and
goes on with the rest of the queue. -/
theorem db_worker_loop_writes (ws : List RingEntry) (db : Db) (rest : List RingEntry)
    (hw : ∀ e ∈ ws, e.isWrite = true) :
    db_worker_loop db (ws ++ rest) =
      db_worker_loop { committed := db.committed, txn := apply_writes db.txn ws } rest := by
  induction ws generalizing db with
  | nil => rfl
  | cons e ws ih =>
    have he : e.isWrite = true := hw e (List.mem_cons_self _ _)
    have hrest : ∀ e1 ∈ ws, e1.isWrite = true := fun e1 h1 => hw e1 (List.mem_cons_of_mem _ h1)
    rw [List.cons_append]
    cases ht : e.type with
    | BLOCK =>
      simp only [db_worker_loop, ht]
      rw [ih _ hrest]
      simp [apply_writes, apply_write, ht, _db_insert_block]
    | LIGHT =>
      simp only [db_worker_loop, ht]
      rw [ih _ hrest]
      simp [apply_writes, apply_write, ht, _db_insert_light]
    | KEY =>
      simp only [db_worker_loop, ht]
      rw [ih _ hrest]
      simp [apply_writes, apply_write, ht, _db_set_key]
    | COMMIT => simp [RingEntry.isWrite, ht] at he
    | EXIT => simp [RingEntry.isWrite, ht] at he

theorem apply_writes_append (t : Tables) (ws1 ws2 : List RingEntry) :
    apply_writes t (ws1 ++ ws2) = apply_writes (apply_writes t ws1) ws2 := by
  simp [apply_writes, List.foldl_append]

/-- C4. Commit ordering: on a queue of N writes, a COMMIT and further writes,
`db_worker_run` consumes the whole queue and is left waiting; the durable
content is then the effect of exactly the first N writes in queue order on the
transaction content it started from, the later writes are in the open
transaction only, and they become durable once a further COMMIT is processed. -/
theorem commit_ordering (st : DbState) (ws1 ws2 : List RingEntry) (c c2 : RingEntry)
    (h1 : ∀ e ∈ ws1, e.isWrite = true) (hc : c.type = RingEntryType.COMMIT)
    (h2 : ∀ e ∈ ws2, e.isWrite = true) (hc2 : c2.type = RingEntryType.COMMIT) :
    db_worker_run { st with ring := ws1 ++ c :: ws2 } =
      ({ st with
          db := { committed := apply_writes st.db.txn ws1,
                  txn := apply_writes (apply_writes st.db.txn ws1) ws2 },
          ring := [] }, none) ∧
    (db_worker_run { st with ring := ws1 ++ c :: (ws2 ++ [c2]) }).1.db.committed =
      apply_writes (apply_writes st.db.txn ws1) ws2 := by
  constructor
  · simp only [db_worker_run]
    rw [db_worker_loop_writes ws1 _ _ h1]
    simp only [db_worker_loop, hc, _db_commit]
    have := db_worker_loop_writes ws2
      { committed := apply_writes st.db.txn ws1, txn := apply_writes st.db.txn ws1 } [] h2
    rw [List.append_nil] at this
    rw [this]
    simp [db_worker_loop]
  · simp only [db_worker_run]
    rw [db_worker_loop_writes ws1 _ _ h1]
    simp only [db_worker_loop, hc, _db_commit]
    rw [db_worker_loop_writes ws2 _ _ h2]
    simp [db_worker_loop, hc2, _db_commit]

/-! ## Block round trip -/

/-- The worker on a queue whose front part holds no EXIT: it goes on with the
rest of the queue from the connection the front part leaves. -/
theorem db_worker_loop_append (pre : List RingEntry) (db : Db) (rest : List RingEntry)
    (hpre : ∀ e ∈ pre, e.type ≠ RingEntryType.EXIT) :
    db_worker_loop db (pre ++ rest) = db_worker_loop (db_worker_loop db pre).1 rest := by
  induction pre generalizing db with
  | nil => rfl
  | cons e pre ih =>
    have he : e.type ≠ RingEntryType.EXIT := hpre e (List.mem_cons_self _ _)
    have hrest : ∀ e1 ∈ pre, e1.type ≠ RingEntryType.EXIT :=
      fun e1 h1 => hpre e1 (List.mem_cons_of_mem _ h1)
    rw [List.cons_append]
    cases ht : e.type with
    | BLOCK => simp only [db_worker_loop, ht]; exact ih _ hrest
    | LIGHT => simp only [db_worker_loop, ht]; exact ih _ hrest
    | KEY => simp only [db_worker_loop, ht]; exact ih _ hrest
    | COMMIT => simp only [db_worker_loop, ht]; exact ih _ hrest
    | EXIT => exact absurd ht he

theorem map_get_map_set (m : List MapEntry) (x y z w : Int) :
    map_get (map_set m x y z w) x y z = w := by
  simp [map_get, map_set]

/-- The table after `insert_block_query` holds exactly one row with the key. -/
theorem insert_block_query_key (rows : List BlockRow) (p q x y z w : Int) :
    (insert_block_query rows p q x y z w).filter (fun r => r.hasKey p q x y z) =
      [{ p := p, q := q, x := x, y := y, z := z, w := w }] := by
  simp [insert_block_query, List.filter_append, List.filter_filter, BlockRow.hasKey]

/-- Loading a chunk after `insert_block_query` ends with the `map_set` of the
inserted row. -/
theorem load_after_insert_block (rows : List BlockRow) (map : List MapEntry)
    (p q x y z w : Int) :
    map_get ((load_blocks_query (insert_block_query rows p q x y z w) p q).foldl
      (fun m r => map_set m r.x r.y r.z r.w) map) x y z = w := by
  simp [load_blocks_query, insert_block_query, List.filter_append, List.foldl_append,
    map_get_map_set]

/-- One queued block insert applied by the worker, on an enabled engine whose
queue holds no EXIT. -/
theorem db_insert_block_applied (st : DbState) (p q x y z w : Int)
    (hen : st.db_enabled = true) (hq : ∀ e ∈ st.ring, e.type ≠ RingEntryType.EXIT) :
    (db_worker_run (db_insert_block st p q x y z w)).1 =
      { st with
          db := _db_insert_block (db_worker_loop st.db st.ring).1 p q x y z w,
          ring := [] } := by
  simp only [db_insert_block, hen, db_worker_run, ring_put]
  simp only [Bool.not_true, Bool.false_eq_true, if_false]
  rw [db_worker_loop_append _ _ _ hq]
  simp [db_worker_loop]

/-- C9. Block round trip: on an enabled engine whose queue holds no EXIT, once
the worker has applied the BLOCK command of `db_insert_block (p,q,x,y,z,w)` the
block table holds exactly one row with key `(p,q,x,y,z)` and `db_load_blocks`
for `(p,q)` leaves `w` at `(x,y,z)` in the map; after a second insert at the
same key with value `w2` the table still holds exactly one row with the key and
the load yields `w2`. -/
theorem block_round_trip (st : DbState) (map : List MapEntry) (p q x y z w w2 : Int)
    (hen : st.db_enabled = true) (hq : ∀ e ∈ st.ring, e.type ≠ RingEntryType.EXIT) :
    ((db_worker_run (db_insert_block st p q x y z w)).1.db.txn.block.filter
        (fun r => r.hasKey p q x y z) =
        [{ p := p, q := q, x := x, y := y, z := z, w := w }] ∧
      map_get (db_load_blocks (db_worker_run (db_insert_block st p q x y z w)).1 map p q)
        x y z = w) ∧
    ((db_worker_run (db_insert_block (db_worker_run (db_insert_block st p q x y z w)).1
        p q x y z w2)).1.db.txn.block.filter (fun r => r.hasKey p q x y z) =
        [{ p := p, q := q, x := x, y := y, z := z, w := w2 }] ∧
      map_get (db_load_blocks (db_worker_run (db_insert_block
        (db_worker_run (db_insert_block st p q x y z w)).1 p q x y z w2)).1 map p q)
        x y z = w2) := by
  have key : ∀ (s : DbState) (v : Int), s.db_enabled = true →
      (∀ e ∈ s.ring, e.type ≠ RingEntryType.EXIT) →
      ((db_worker_run (db_insert_block s p q x y z v)).1.db.txn.block.filter
        (fun r => r.hasKey p q x y z) =
        [{ p := p, q := q, x := x, y := y, z := z, w := v }] ∧
      map_get (db_load_blocks (db_worker_run (db_insert_block s p q x y z v)).1 map p q)
        x y z = v) := by
    intro s v hs hs2
    rw [db_insert_block_applied s p q x y z v hs hs2]
    constructor
    · simp only [_db_insert_block]
      exact insert_block_query_key _ p q x y z v
    · simp only [db_load_blocks, hs, _db_insert_block]
      simp only [Bool.not_true, Bool.false_eq_true, if_false]
      exact load_after_insert_block _ map p q x y z v
  refine ⟨key st w hen hq, ?_⟩
  apply key
  · rw [db_insert_block_applied st p q x y z w hen hq]
    exact hen
  · rw [db_insert_block_applied st p q x y z w hen hq]
    intro e he
    cases he

/-! ## Signs -/

/-- After `insert_sign_query` exactly one row holds the key, the new one. -/
theorem insert_sign_query_key (rows : List SignRow) (p q x y z face : Int) (text : String) :
    (insert_sign_query rows p q x y z face text).filter (fun r => r.hasKey x y z face) =
      [{ p := p, q := q, x := x, y := y, z := z, face := face, text := text }] := by
  simp [insert_sign_query, List.filter_append, List.filter_filter, SignRow.hasKey]

/-- C10. Sign uniqueness and exact delete: on an enabled engine, after two
`db_insert_sign` calls with the same `(x,y,z,face)` exactly one row with that
key remains and it is the row of the second call; `db_delete_sign (x,y,z,face)`
leaves no row with that key, leaves the rows with any other key as they were,
in particular every row at the same `(x,y,z)` with another face, and changes no
other table. -/
theorem sign_unique_exact_delete (st : DbState) (p1 q1 p2 q2 x y z face : Int)
    (t1 t2 : String) (hen : st.db_enabled = true) :
    (db_insert_sign (db_insert_sign st p1 q1 x y z face t1) p2 q2 x y z face t2).db.txn.sign.filter
        (fun r => r.hasKey x y z face) =
      [{ p := p2, q := q2, x := x, y := y, z := z, face := face, text := t2 }] ∧
    (db_delete_sign st x y z face).db.txn.sign.filter (fun r => r.hasKey x y z face) = [] ∧
    (db_delete_sign st x y z face).db.txn.sign.filter (fun r => !r.hasKey x y z face) =
      st.db.txn.sign.filter (fun r => !r.hasKey x y z face) ∧
    (∀ r ∈ st.db.txn.sign, r.x = x → r.y = y → r.z = z → r.face ≠ face →
      r ∈ (db_delete_sign st x y z face).db.txn.sign) ∧
    db_delete_sign st x y z face =
      { st with db := { st.db with txn :=
          { st.db.txn with sign := (db_delete_sign st x y z face).db.txn.sign } } } := by
  refine ⟨?_, ?_, ?_, ?_, ?_⟩
  · simp only [db_insert_sign, hen, Bool.not_true, Bool.false_eq_true, if_false]
    exact insert_sign_query_key _ p2 q2 x y z face t2
  · simp [db_delete_sign, hen, delete_sign_query, List.filter_filter]
  · simp [db_delete_sign, hen, delete_sign_query, List.filter_filter]
  · intro r hr hx hy hz hf
    simp [db_delete_sign, hen, delete_sign_query, List.mem_filter, hr, SignRow.hasKey, hf]
  · simp [db_delete_sign, hen]

/-! ## Shutdown: every queued write is in the durable content -/

theorem insert_block_query_other (rows : List BlockRow) (p q x y z w p1 q1 x1 y1 z1 : Int)
    (h : ¬ (p = p1 ∧ q = q1 ∧ x = x1 ∧ y = y1 ∧ z = z1)) :
    (insert_block_query rows p q x y z w).filter (fun r => r.hasKey p1 q1 x1 y1 z1) =
      rows.filter (fun r => r.hasKey p1 q1 x1 y1 z1) := by
  simp only [insert_block_query, List.filter_append, List.filter_filter]
  have h1 : List.filter (fun r => r.hasKey p1 q1 x1 y1 z1)
      [({ p := p, q := q, x := x, y := y, z := z, w := w } : BlockRow)] = [] := by
    simp [BlockRow.hasKey, h]
  rw [h1, List.append_nil]
  apply List.filter_congr
  intro r _
  by_cases hk : r.p = p1 ∧ r.q = q1 ∧ r.x = x1 ∧ r.y = y1 ∧ r.z = z1
  · have hn : ¬ (r.p = p ∧ r.q = q ∧ r.x = x ∧ r.y = y ∧ r.z = z) := by
      rintro ⟨a1, a2, a3, a4, a5⟩
      exact h ⟨a1.symm.trans hk.1, a2.symm.trans hk.2.1, a3.symm.trans hk.2.2.1,
        a4.symm.trans hk.2.2.2.1, a5.symm.trans hk.2.2.2.2⟩
    have e1 : r.hasKey p1 q1 x1 y1 z1 = true := by simp only [BlockRow.hasKey]; exact decide_eq_true hk
    have e2 : r.hasKey p q x y z = false := by simp only [BlockRow.hasKey]; exact decide_eq_false hn
    rw [e1, e2]; rfl
  · have e1 : r.hasKey p1 q1 x1 y1 z1 = false := by simp only [BlockRow.hasKey]; exact decide_eq_false hk
    rw [e1]; rfl

theorem set_key_query_same (rows : List KeyRow) (p q key : Int) :
    (set_key_query rows p q key).filter (fun r => decide (r.p = p ∧ r.q = q)) =
      [{ p := p, q := q, key := key }] := by
  simp [set_key_query, List.filter_append, List.filter_filter]

theorem set_key_query_other (rows : List KeyRow) (p q key p1 q1 : Int)
    (h : ¬ (p = p1 ∧ q = q1)) :
    (set_key_query rows p q key).filter (fun r => decide (r.p = p1 ∧ r.q = q1)) =
      rows.filter (fun r => decide (r.p = p1 ∧ r.q = q1)) := by
  simp only [set_key_query, List.filter_append, List.filter_filter]
  have h1 : List.filter (fun r => decide (r.p = p1 ∧ r.q = q1))
      [({ p := p, q := q, key := key } : KeyRow)] = [] := by
    simp [h]
  rw [h1, List.append_nil]
  apply List.filter_congr
  intro r _
  by_cases hk : r.p = p1 ∧ r.q = q1
  · have hn : ¬ (r.p = p ∧ r.q = q) := by
      rintro ⟨a1, a2⟩
      exact h ⟨a1.symm.trans hk.1, a2.symm.trans hk.2⟩
    rw [decide_eq_true hk, decide_eq_false hn]; rfl
  · rw [decide_eq_false hk]; rfl

theorem apply_writes_cons (t : Tables) (e : RingEntry) (ws : List RingEntry) :
    apply_writes t (e :: ws) = apply_writes (apply_write t e) ws := rfl

/-- A write command of another kind or another key leaves the block rows of a
key as they are. -/
theorem apply_write_block_other (t : Tables) (e : RingEntry) (p q x y z : Int)
    (h : ¬ (e.type = RingEntryType.BLOCK ∧ e.p = p ∧ e.q = q ∧ e.x = x ∧ e.y = y ∧ e.z = z)) :
    (apply_write t e).block.filter (fun r => r.hasKey p q x y z) =
      t.block.filter (fun r => r.hasKey p q x y z) := by
  cases ht : e.type with
  | BLOCK =>
    simp only [apply_write, ht]
    exact insert_block_query_other _ _ _ _ _ _ _ _ _ _ _ _ (fun hh => h ⟨ht, hh⟩)
  | LIGHT => simp only [apply_write, ht]
  | KEY => simp only [apply_write, ht]
  | COMMIT => simp only [apply_write, ht]
  | EXIT => simp only [apply_write, ht]

theorem apply_write_light_other (t : Tables) (e : RingEntry) (p q x y z : Int)
    (h : ¬ (e.type = RingEntryType.LIGHT ∧ e.p = p ∧ e.q = q ∧ e.x = x ∧ e.y = y ∧ e.z = z)) :
    (apply_write t e).light.filter (fun r => r.hasKey p q x y z) =
      t.light.filter (fun r => r.hasKey p q x y z) := by
  cases ht : e.type with
  | BLOCK => simp only [apply_write, ht]
  | LIGHT =>
    simp only [apply_write, ht]
    exact insert_block_query_other _ _ _ _ _ _ _ _ _ _ _ _ (fun hh => h ⟨ht, hh⟩)
  | KEY => simp only [apply_write, ht]
  | COMMIT => simp only [apply_write, ht]
  | EXIT => simp only [apply_write, ht]

theorem apply_write_key_other (t : Tables) (e : RingEntry) (p q : Int)
    (h : ¬ (e.type = RingEntryType.KEY ∧ e.p = p ∧ e.q = q)) :
    (apply_write t e).key.filter (fun r => decide (r.p = p ∧ r.q = q)) =
      t.key.filter (fun r => decide (r.p = p ∧ r.q = q)) := by
  cases ht : e.type with
  | BLOCK => simp only [apply_write, ht]
  | LIGHT => simp only [apply_write, ht]
  | KEY =>
    simp only [apply_write, ht]
    exact set_key_query_other _ _ _ _ _ _ (fun hh => h ⟨ht, hh⟩)
  | COMMIT => simp only [apply_write, ht]
  | EXIT => simp only [apply_write, ht]

/-- Write commands change the tables `block`, `light` and `key` only. -/
theorem apply_write_rest (t : Tables) (e : RingEntry) :
    (apply_write t e).sign = t.sign ∧ (apply_write t e).items = t.items ∧
      (apply_write t e).state = t.state := by
  cases ht : e.type <;> simp [apply_write, ht]

theorem apply_writes_rest (ws : List RingEntry) (t : Tables) :
    (apply_writes t ws).sign = t.sign ∧ (apply_writes t ws).items = t.items ∧
      (apply_writes t ws).state = t.state := by
  induction ws generalizing t with
  | nil => exact ⟨rfl, rfl, rfl⟩
  | cons e ws ih =>
    rw [apply_writes_cons]
    obtain ⟨h1, h2, h3⟩ := ih (apply_write t e)
    obtain ⟨g1, g2, g3⟩ := apply_write_rest t e
    exact ⟨h1.trans g1, h2.trans g2, h3.trans g3⟩

theorem apply_writes_block_other (ws : List RingEntry) (t : Tables) (p q x y z : Int)
    (h : ∀ e ∈ ws,
      ¬ (e.type = RingEntryType.BLOCK ∧ e.p = p ∧ e.q = q ∧ e.x = x ∧ e.y = y ∧ e.z = z)) :
    (apply_writes t ws).block.filter (fun r => r.hasKey p q x y z) =
      t.block.filter (fun r => r.hasKey p q x y z) := by
  induction ws generalizing t with
  | nil => rfl
  | cons e ws ih =>
    rw [apply_writes_cons, ih _ (fun e1 h1 => h e1 (List.mem_cons_of_mem _ h1))]
    exact apply_write_block_other t e p q x y z (h e (List.mem_cons_self _ _))

theorem apply_writes_light_other (ws : List RingEntry) (t : Tables) (p q x y z : Int)
    (h : ∀ e ∈ ws,
      ¬ (e.type = RingEntryType.LIGHT ∧ e.p = p ∧ e.q = q ∧ e.x = x ∧ e.y = y ∧ e.z = z)) :
    (apply_writes t ws).light.filter (fun r => r.hasKey p q x y z) =
      t.light.filter (fun r => r.hasKey p q x y z) := by
  induction ws generalizing t with
  | nil => rfl
  | cons e ws ih =>
    rw [apply_writes_cons, ih _ (fun e1 h1 => h e1 (List.mem_cons_of_mem _ h1))]
    exact apply_write_light_other t e p q x y z (h e (List.mem_cons_self _ _))

theorem apply_writes_key_other (ws : List RingEntry) (t : Tables) (p q : Int)
    (h : ∀ e ∈ ws, ¬ (e.type = RingEntryType.KEY ∧ e.p = p ∧ e.q = q)) :
    (apply_writes t ws).key.filter (fun r => decide (r.p = p ∧ r.q = q)) =
      t.key.filter (fun r => decide (r.p = p ∧ r.q = q)) := by
  induction ws generalizing t with
  | nil => rfl
  | cons e ws ih =>
    rw [apply_writes_cons, ih _ (fun e1 h1 => h e1 (List.mem_cons_of_mem _ h1))]
    exact apply_write_key_other t e p q (h e (List.mem_cons_self _ _))

/-- A block write that no later write of the sequence replaces is the one row
of its key after the sequence. -/
theorem apply_writes_block_last (t : Tables) (pre post : List RingEntry) (e : RingEntry)
    (he : e.type = RingEntryType.BLOCK)
    (hpost : ∀ e1 ∈ post, ¬ (e1.type = RingEntryType.BLOCK ∧ e1.p = e.p ∧ e1.q = e.q ∧
      e1.x = e.x ∧ e1.y = e.y ∧ e1.z = e.z)) :
    (apply_writes t (pre ++ e :: post)).block.filter (fun r => r.hasKey e.p e.q e.x e.y e.z) =
      [{ p := e.p, q := e.q, x := e.x, y := e.y, z := e.z, w := e.w }] := by
  rw [apply_writes_append, apply_writes_cons, apply_writes_block_other post _ _ _ _ _ _ hpost]
  simp only [apply_write, he]
  exact insert_block_query_key _ _ _ _ _ _ _

theorem apply_writes_light_last (t : Tables) (pre post : List RingEntry) (e : RingEntry)
    (he : e.type = RingEntryType.LIGHT)
    (hpost : ∀ e1 ∈ post, ¬ (e1.type = RingEntryType.LIGHT ∧ e1.p = e.p ∧ e1.q = e.q ∧
      e1.x = e.x ∧ e1.y = e.y ∧ e1.z = e.z)) :
    (apply_writes t (pre ++ e :: post)).light.filter (fun r => r.hasKey e.p e.q e.x e.y e.z) =
      [{ p := e.p, q := e.q, x := e.x, y := e.y, z := e.z, w := e.w }] := by
  rw [apply_writes_append, apply_writes_cons, apply_writes_light_other post _ _ _ _ _ _ hpost]
  simp only [apply_write, he]
  exact insert_block_query_key _ _ _ _ _ _ _

theorem apply_writes_key_last (t : Tables) (pre post : List RingEntry) (e : RingEntry)
    (he : e.type = RingEntryType.KEY)
    (hpost : ∀ e1 ∈ post, ¬ (e1.type = RingEntryType.KEY ∧ e1.p = e.p ∧ e1.q = e.q)) :
    (apply_writes t (pre ++ e :: post)).key.filter (fun r => decide (r.p = e.p ∧ r.q = e.q)) =
      [{ p := e.p, q := e.q, key := e.key }] := by
  rw [apply_writes_append, apply_writes_cons, apply_writes_key_other post _ _ _ hpost]
  simp only [apply_write, he]
  exact set_key_query_same _ _ _ _

/-- C5. Drain on shutdown: on a queue of K writes followed by EXIT,
`db_worker_run` applies the K writes in queue order, returns 0 and leaves
whatever follows EXIT in the queue; and `db_close` on an enabled engine whose
queue holds K writes returns with an empty queue and all K writes in the
durable content: every queued BLOCK, LIGHT or KEY write that no later queued
write of the same kind and key replaces is the one durable row of its key and
carries its value, the rows of the keys that no queued write names are those
of the open transaction at the call, and the other tables are those of the
open transaction at the call. -/
theorem drain_on_shutdown (st : DbState) (ws later : List RingEntry) (x : RingEntry)
    (hen : st.db_enabled = true) (hw : ∀ e ∈ ws, e.isWrite = true)
    (hx : x.type = RingEntryType.EXIT) :
    db_worker_run { st with ring := ws ++ x :: later } =
      ({ st with
          db := { committed := st.db.committed, txn := apply_writes st.db.txn ws },
          ring := later }, some 0) ∧
    ∃ fin : DbState, db_close { st with ring := ws } = some fin ∧
      fin = { st with
        db := { committed := apply_writes st.db.txn ws, txn := apply_writes st.db.txn ws },
        ring := [] } ∧
      (∀ (pre post : List RingEntry) (e : RingEntry), ws = pre ++ e :: post →
        e.type = RingEntryType.BLOCK →
        (∀ e1 ∈ post, ¬ (e1.type = RingEntryType.BLOCK ∧ e1.p = e.p ∧ e1.q = e.q ∧
          e1.x = e.x ∧ e1.y = e.y ∧ e1.z = e.z)) →
        fin.db.committed.block.filter (fun r => r.hasKey e.p e.q e.x e.y e.z) =
          [{ p := e.p, q := e.q, x := e.x, y := e.y, z := e.z, w := e.w }]) ∧
      (∀ (pre post : List RingEntry) (e : RingEntry), ws = pre ++ e :: post →
        e.type = RingEntryType.LIGHT →
        (∀ e1 ∈ post, ¬ (e1.type = RingEntryType.LIGHT ∧ e1.p = e.p ∧ e1.q = e.q ∧
          e1.x = e.x ∧ e1.y = e.y ∧ e1.z = e.z)) →
        fin.db.committed.light.filter (fun r => r.hasKey e.p e.q e.x e.y e.z) =
          [{ p := e.p, q := e.q, x := e.x, y := e.y, z := e.z, w := e.w }]) ∧
      (∀ (pre post : List RingEntry) (e : RingEntry), ws = pre ++ e :: post →
        e.type = RingEntryType.KEY →
        (∀ e1 ∈ post, ¬ (e1.type = RingEntryType.KEY ∧ e1.p = e.p ∧ e1.q = e.q)) →
        fin.db.committed.key.filter (fun r => decide (r.p = e.p ∧ r.q = e.q)) =
          [{ p := e.p, q := e.q, key := e.key }]) ∧
      (∀ p q x y z : Int,
        (∀ e ∈ ws, ¬ (e.type = RingEntryType.BLOCK ∧ e.p = p ∧ e.q = q ∧ e.x = x ∧
          e.y = y ∧ e.z = z)) →
        fin.db.committed.block.filter (fun r => r.hasKey p q x y z) =
          st.db.txn.block.filter (fun r => r.hasKey p q x y z)) ∧
      (∀ p q x y z : Int,
        (∀ e ∈ ws, ¬ (e.type = RingEntryType.LIGHT ∧ e.p = p ∧ e.q = q ∧ e.x = x ∧
          e.y = y ∧ e.z = z)) →
        fin.db.committed.light.filter (fun r => r.hasKey p q x y z) =
          st.db.txn.light.filter (fun r => r.hasKey p q x y z)) ∧
      (∀ p q : Int,
        (∀ e ∈ ws, ¬ (e.type = RingEntryType.KEY ∧ e.p = p ∧ e.q = q)) →
        fin.db.committed.key.filter (fun r => decide (r.p = p ∧ r.q = q)) =
          st.db.txn.key.filter (fun r => decide (r.p = p ∧ r.q = q))) ∧
      fin.db.committed.sign = st.db.txn.sign ∧
      fin.db.committed.items = st.db.txn.items ∧
      fin.db.committed.state = st.db.txn.state := by
  constructor
  · simp only [db_worker_run]
    rw [db_worker_loop_writes ws _ _ hw]
    simp [db_worker_loop, hx]
  · refine ⟨_, ?_, rfl, ?_, ?_, ?_, ?_, ?_, ?_, ?_⟩
    · simp only [db_close, db_worker_stop, hen, db_worker_run, ring_put]
      rw [db_worker_loop_writes ws _ _ hw]
      simp [db_worker_loop]
    · intro pre post e hws he hpost
      rw [hws]
      exact apply_writes_block_last _ pre post e he hpost
    · intro pre post e hws he hpost
      rw [hws]
      exact apply_writes_light_last _ pre post e he hpost
    · intro pre post e hws he hpost
      rw [hws]
      exact apply_writes_key_last _ pre post e he hpost
    · intro p q x y z h
      exact apply_writes_block_other ws _ p q x y z h
    · intro p q h1 h2 h3 h
      exact apply_writes_light_other ws _ p q h1 h2 h3 h
    · intro p q h
      exact apply_writes_key_other ws _ p q h
    · exact apply_writes_rest ws _

/-! ## Persisted item ids -/

theorem last_db_item_id_loop_eq (l : List db_item_list) (acc : Int) :
    last_db_item_id_loop l acc =
      match max_db_item_id l with
      | none => acc
      | some m => max acc m := by
  induction l generalizing acc with
  | nil => rfl
  | cons it rest ih =>
    simp only [last_db_item_id_loop, max_db_item_id]
    rw [ih]
    cases hm : max_db_item_id rest with
    | none =>
      simp only [max_def]
      split_ifs <;> omega
    | some m =>
      simp only [max_def]
      split_ifs <;> omega

theorem max_db_item_id_ge (l : List db_item_list) (it : db_item_list) (h : it ∈ l) :
    ∃ m, max_db_item_id l = some m ∧ it.id ≤ m := by
  induction l with
  | nil => cases h
  | cons a rest ih =>
    simp only [max_db_item_id]
    rcases List.mem_cons.mp h with rfl | hmem
    · cases hm : max_db_item_id rest with
      | none => exact ⟨_, rfl, le_refl _⟩
      | some m => exact ⟨_, rfl, le_max_left _ _⟩
    · obtain ⟨m, hm, hle⟩ := ih hmem
      rw [hm]
      exact ⟨_, rfl, le_trans hle (le_max_right _ _)⟩

theorem max_db_item_id_mem (l : List db_item_list) (m : Int) (h : max_db_item_id l = some m) :
    ∃ it ∈ l, it.id = m := by
  induction l generalizing m with
  | nil => cases h
  | cons a rest ih =>
    simp only [max_db_item_id] at h
    cases hm : max_db_item_id rest with
    | none =>
      rw [hm] at h
      exact ⟨a, List.mem_cons_self _ _, Option.some.inj h⟩
    | some m1 =>
      rw [hm] at h
      have h1 : max a.id m1 = m := Option.some.inj h
      obtain ⟨it, hit, hid⟩ := ih m1 hm
      rcases le_total a.id m1 with hle | hle
      · exact ⟨it, List.mem_cons_of_mem _ hit, by rw [hid, ← h1, max_eq_right hle]⟩
      · exact ⟨a, List.mem_cons_self _ _, by rw [← h1, max_eq_left hle]⟩

/-- With no negative id, `_recalc_last_db_item_id` computes the maximum id, or
0 when there is no record. -/
theorem last_db_item_id_loop_zero (l : List db_item_list) (h : ∀ it ∈ l, 0 ≤ it.id) :
    last_db_item_id_loop l 0 = max_db_item_id_or_zero l := by
  rw [last_db_item_id_loop_eq, max_db_item_id_or_zero]
  cases hm : max_db_item_id l with
  | none => rfl
  | some m =>
    obtain ⟨it, hit, hid⟩ := max_db_item_id_mem l m hm
    have := h it hit
    simp only [Option.getD_some, max_def]
    split_ifs <;> omega

theorem le_max_db_item_id_or_zero (l : List db_item_list) (it : db_item_list) (h : it ∈ l) :
    it.id ≤ max_db_item_id_or_zero l := by
  obtain ⟨m, hm, hle⟩ := max_db_item_id_ge l it h
  simpa [max_db_item_id_or_zero, hm] using hle

/-- In every case `_recalc_last_db_item_id` computes the maximum of 0 and the
ids. -/
theorem last_db_item_id_loop_max_zero (l : List db_item_list) :
    last_db_item_id_loop l 0 = max_zero_db_item_id l := by
  rw [last_db_item_id_loop_eq, max_zero_db_item_id, max_db_item_id_or_zero]
  cases max_db_item_id l with
  | none => simp
  | some m => simp

theorem le_max_zero_db_item_id (l : List db_item_list) (it : db_item_list) (h : it ∈ l) :
    it.id ≤ max_zero_db_item_id l :=
  le_trans (le_max_db_item_id_or_zero l it h) (le_max_right _ _)

theorem max_zero_db_item_id_nonneg (l : List db_item_list) : 0 ≤ max_zero_db_item_id l :=
  le_max_left _ _

theorem max_zero_db_item_id_cons (l : List db_item_list) (name : Option String) :
    max_zero_db_item_id ({ name := name, id := max_zero_db_item_id l + 1 } :: l) =
      max_zero_db_item_id l + 1 := by
  have h0 := max_zero_db_item_id_nonneg l
  have h1 : max_db_item_id_or_zero l ≤ max_zero_db_item_id l := le_max_right _ _
  have h2 : max_zero_db_item_id l = max 0 (max_db_item_id_or_zero l) := rfl
  unfold max_zero_db_item_id max_db_item_id_or_zero at *
  simp only [max_db_item_id]
  cases hm : max_db_item_id l with
  | none =>
    rw [hm] at h0 h1 h2
    simp only [Option.getD_none, Option.getD_some, max_def] at *
    split_ifs <;> omega
  | some m =>
    rw [hm] at h0 h1 h2
    simp only [Option.getD_some, max_def] at *
    split_ifs at * <;> omega

theorem load_items_loop_eq (rows : List ItemRow) (acc : List db_item_list) :
    load_items_loop rows acc =
      (rows.reverse.map (fun row => ({ name := none, id := row.id } : db_item_list))) ++ acc := by
  induction rows generalizing acc with
  | nil => rfl
  | cons row rest ih =>
    simp [load_items_loop, ih]

/-- The loop of `_recalc_db_item_caches` performs no out-of-bounds write when
every index it uses is inside the arrays. -/
theorem recalc_caches_loop_some (items : List item_list) (l : List db_item_list)
    (a b : List Int)
    (h : ∀ it ∈ l, (0 ≤ it.id ∧ it.id < (a.length : Int)) ∧
      (0 ≤ cache_item_id items it.name ∧ cache_item_id items it.name < (b.length : Int))) :
    ∃ r, recalc_caches_loop items l a b = some r := by
  induction l generalizing a b with
  | nil => exact ⟨_, rfl⟩
  | cons it rest ih =>
    obtain ⟨⟨h0, h1⟩, ⟨h3, h2⟩⟩ := h it (List.mem_cons_self _ _)
    simp only [recalc_caches_loop, array_store, h0, h1, h2, h3, and_self, if_true]
    apply ih
    intro it1 hit1
    simpa [List.length_set] using h it1 (List.mem_cons_of_mem _ hit1)

/-- The index `item_id` of the rebuild is between 0 and `bound` when the
runtime ids are at most `bound` and at most `INT_MAX`. -/
theorem cache_item_id_range (items : List item_list) (name : Option String) (bound : Nat)
    (h : ∀ i ∈ items, i.id ≤ bound) (hint : ∀ i ∈ items, (i.id : Int) ≤ INT_MAX) :
    0 ≤ cache_item_id items name ∧ cache_item_id items name ≤ (bound : Int) := by
  cases name with
  | none =>
    rw [cache_item_id_dangling]
    exact ⟨le_refl 0, Int.ofNat_nonneg _⟩
  | some s =>
    cases hg : get_item_by_name items s with
    | none =>
      rw [cache_item_id_of_none hg]
      exact ⟨le_refl 0, Int.ofNat_nonneg _⟩
    | some item =>
      have hmem := (get_item_by_name_some hg).1
      rw [cache_item_id_of_get hg, int_wrap_of_le _ (hint item hmem)]
      exact ⟨Int.ofNat_nonneg _, by exact_mod_cast h item hmem⟩

/-- The rebuild performs no out-of-bounds write when no persisted id is
negative or above `last_db_item_id`, `last_db_item_id` is below `INT_MAX`, no
runtime id is above `last_item_id` or above `INT_MAX`, and `last_item_id` is
below `UINT_MAX`. -/
theorem recalc_db_item_caches_some (st : DbState)
    (hdb : ∀ it ∈ st.db_items, 0 ≤ it.id ∧ it.id ≤ st.last_db_item_id)
    (hmax : st.last_db_item_id < INT_MAX)
    (hreg : ∀ i ∈ st.items, i.id ≤ st.last_item_id)
    (hint : ∀ i ∈ st.items, (i.id : Int) ≤ INT_MAX)
    (hlast : st.last_item_id < UINT_MAX) :
    ∃ a b, _recalc_db_item_caches st = some { st with _db_to_id := a, _id_to_db := b } := by
  simp only [INT_MAX] at hmax
  simp only [UINT_MAX] at hlast
  obtain ⟨r, hr⟩ := recalc_caches_loop_some st.items st.db_items
    (List.replicate (int_wrap (st.last_db_item_id + 1)).toNat (0 : Int))
    (List.replicate (uint_wrap (st.last_item_id + 1)) (0 : Int)) (by
      intro it hit
      obtain ⟨h0, h1⟩ := hdb it hit
      obtain ⟨h2, h3⟩ := cache_item_id_range st.items it.name st.last_item_id hreg hint
      simp only [List.length_replicate, int_wrap, uint_wrap]
      refine ⟨⟨h0, ?_⟩, ⟨h2, ?_⟩⟩
      · omega
      · omega)
  refine ⟨r.1, r.2, ?_⟩
  simp [_recalc_db_item_caches, hr]

/-- A rebuild that completes changes nothing but the two arrays. -/
theorem recalc_db_item_caches_frame {st st1 : DbState}
    (h : _recalc_db_item_caches st = some st1) :
    st1.db_enabled = st.db_enabled ∧ st1.db = st.db ∧ st1.ring = st.ring ∧
    st1.db_items = st.db_items ∧ st1.last_db_item_id = st.last_db_item_id ∧
    st1.items = st.items ∧ st1.last_item_id = st.last_item_id := by
  obtain ⟨_, rfl⟩ := recalc_db_item_caches_spec h
  exact ⟨rfl, rfl, rfl, rfl, rfl, rfl, rfl⟩

theorem db_item_exists_iff (st : DbState) (name : String) :
    db_item_exists st name = true ↔ ∃ row ∈ st.db.txn.items, row.name = name := by
  unfold db_item_exists check_item_exists_query
  constructor
  · intro h
    cases hl : st.db.txn.items.filter (fun r => decide (r.name = name)) with
    | nil => rw [hl] at h; simp at h
    | cons row rest =>
      have hmem : row ∈ st.db.txn.items.filter (fun r => decide (r.name = name)) := by
        rw [hl]; exact List.mem_cons_self _ _
      rw [List.mem_filter] at hmem
      exact ⟨row, hmem.1, by simpa using hmem.2⟩
  · rintro ⟨row, hrow, hname⟩
    have hmem : row ∈ st.db.txn.items.filter (fun r => decide (r.name = name)) := by
      rw [List.mem_filter]; exact ⟨hrow, by simpa using hname⟩
    cases hl : st.db.txn.items.filter (fun r => decide (r.name = name)) with
    | nil => rw [hl] at hmem; cases hmem
    | cons r rest =>
      have : ∀ (l : List ItemRow) (b : Bool),
          List.foldl (fun _ _ => decide ((1 : Int) ≠ 0)) b (r :: l) = true := by
        intro l
        induction l with
        | nil => intro b; simp
        | cons c l ih => intro b; simpa using ih true
      exact this rest false

/-- With a name that has a record the body of `db_insert_item` changes
nothing. -/
theorem db_insert_item_records_present (st : DbState) (name : String)
    (hex : db_item_exists st name = true) :
    db_insert_item_records st name = st := by
  simp [db_insert_item_records, hex]

/-- On an enabled engine `db_insert_item` with a name that has a record is the
rebuild of the caches and nothing else. -/
theorem db_insert_item_present (st : DbState) (id : Int) (name : String)
    (hen : st.db_enabled = true) (hex : db_item_exists st name = true) :
    db_insert_item st id name = _recalc_db_item_caches st := by
  simp [db_insert_item, hen, db_insert_item_records_present st name hex]

/-- In a consistent state no persisted id is above `last_db_item_id`, which is
not negative. -/
theorem persistedIdsOk_bounds (st : DbState) (hok : PersistedIdsOk st) :
    0 ≤ st.last_db_item_id ∧ ∀ it ∈ st.db_items, it.id ≤ st.last_db_item_id := by
  obtain ⟨_, _, hlast⟩ := hok
  rw [hlast]
  exact ⟨max_zero_db_item_id_nonneg _, fun it hit => le_max_zero_db_item_id _ it hit⟩

/-- With a name that has no record, on a consistent state with
`last_db_item_id` below `INT_MAX`, the body of `db_insert_item` appends the row
`(m + 1, name)` to table `items`, links the same record at the head of
`db_items` and sets `last_db_item_id` to `m + 1`, where `m` is the maximum of 0
and the persisted ids. -/
theorem db_insert_item_records_absent (st : DbState) (name : String)
    (hok : PersistedIdsOk st) (habs : db_item_exists st name = false)
    (hmax : st.last_db_item_id < INT_MAX) :
    db_insert_item_records st name = { st with
      db := { st.db with txn := { st.db.txn with items :=
        st.db.txn.items ++ [{ id := max_zero_db_item_id st.db_items + 1, name := name }] } },
      db_items :=
        { name := some name, id := max_zero_db_item_id st.db_items + 1 } :: st.db_items,
      last_db_item_id := max_zero_db_item_id st.db_items + 1 } := by
  obtain ⟨hmirror, _, hlast⟩ := hok
  have h0 := max_zero_db_item_id_nonneg st.db_items
  have hwrap : int_wrap (st.last_db_item_id + 1) = max_zero_db_item_id st.db_items + 1 := by
    rw [int_wrap_succ _ (by omega) hmax, hlast]
  have hfilter : insert_item_query st.db.txn.items (max_zero_db_item_id st.db_items + 1) name =
      st.db.txn.items ++ [{ id := max_zero_db_item_id st.db_items + 1, name := name }] := by
    unfold insert_item_query
    congr 1
    rw [List.filter_eq_self]
    intro row hrow
    have hrev : row.id ∈ st.db_items.map (fun it => it.id) := by
      rw [hmirror]
      exact List.mem_reverse.mpr (List.mem_map.mpr ⟨row, hrow, rfl⟩)
    obtain ⟨it, hit, hid⟩ := List.mem_map.mp hrev
    have := le_max_zero_db_item_id st.db_items it hit
    simp only [Bool.not_eq_true', decide_eq_false_iff_not]
    omega
  have hloop : last_db_item_id_loop
      ({ name := some name, id := max_zero_db_item_id st.db_items + 1 } :: st.db_items) 0 =
      max_zero_db_item_id st.db_items + 1 := by
    rw [last_db_item_id_loop_max_zero, max_zero_db_item_id_cons]
  simp only [db_insert_item_records, habs, _recalc_last_db_item_id, hwrap, hfilter, hloop,
    Bool.not_false, if_true]

/-- The state the body of `db_insert_item` leaves for a name without record is
again consistent. -/
theorem persistedIdsOk_insert (st : DbState) (name : String) (hok : PersistedIdsOk st) :
    PersistedIdsOk { st with
      db := { st.db with txn := { st.db.txn with items :=
        st.db.txn.items ++ [{ id := max_zero_db_item_id st.db_items + 1, name := name }] } },
      db_items :=
        { name := some name, id := max_zero_db_item_id st.db_items + 1 } :: st.db_items,
      last_db_item_id := max_zero_db_item_id st.db_items + 1 } := by
  obtain ⟨hmirror, hnodup, hlast⟩ := hok
  refine ⟨?_, ?_, ?_⟩
  · simp only [List.map_cons, List.map_append, List.map_nil, List.reverse_append,
      List.reverse_cons, List.reverse_nil, List.nil_append, List.singleton_append, hmirror]
  · simp only [List.map_cons, List.nodup_cons]
    refine ⟨?_, hnodup⟩
    intro hmem
    obtain ⟨it, hit, hid⟩ := List.mem_map.mp hmem
    have := le_max_zero_db_item_id st.db_items it hit
    omega
  · exact (max_zero_db_item_id_cons _ _).symm

/-- One body of `db_insert_item` on a consistent state with `last_db_item_id`
below `INT_MAX` leaves a consistent state and raises `last_db_item_id` by at
most 1. -/
theorem db_insert_item_records_ok (st : DbState) (name : String)
    (hok : PersistedIdsOk st) (hmax : st.last_db_item_id < INT_MAX) :
    PersistedIdsOk (db_insert_item_records st name) ∧
      (db_insert_item_records st name).last_db_item_id ≤ st.last_db_item_id + 1 := by
  cases hex : db_item_exists st name with
  | true =>
    rw [db_insert_item_records_present st name hex]
    exact ⟨hok, by omega⟩
  | false =>
    rw [db_insert_item_records_absent st name hok hex hmax]
    refine ⟨persistedIdsOk_insert st name hok, ?_⟩
    simp only [hok.2.2]
    exact le_refl _

/-- Every sequence of bodies of `db_insert_item` on a consistent state leaves
a consistent state, when `last_db_item_id` plus the number of calls is at most
`INT_MAX`. -/
theorem db_insert_items_records_ok (names : List String) (st : DbState)
    (hok : PersistedIdsOk st)
    (hroom : st.last_db_item_id + (names.length : Int) ≤ INT_MAX) :
    PersistedIdsOk (db_insert_items_records st names) ∧
      (db_insert_items_records st names).last_db_item_id ≤
        st.last_db_item_id + (names.length : Int) := by
  induction names generalizing st with
  | nil =>
    simp only [db_insert_items_records, List.length_nil, Nat.cast_zero, add_zero]
    exact ⟨hok, le_refl _⟩
  | cons name rest ih =>
    simp only [List.length_cons, Nat.cast_add, Nat.cast_one] at hroom ⊢
    have hmax : st.last_db_item_id < INT_MAX := by omega
    obtain ⟨hok1, hle1⟩ := db_insert_item_records_ok st name hok hmax
    obtain ⟨hok2, hle2⟩ := ih (db_insert_item_records st name) hok1 (by omega)
    simp only [db_insert_items_records]
    exact ⟨hok2, by omega⟩

/-- The list `db_load_items` builds from a table with pairwise distinct ids is
consistent. -/
theorem db_load_items_records_ok (st0 : DbState)
    (hdistinct : (st0.db.txn.items.map (fun r => r.id)).Nodup) :
    PersistedIdsOk (db_load_items_records st0) := by
  have hids : (load_items_loop st0.db.txn.items []).map (fun it => it.id) =
      (st0.db.txn.items.map (fun r => r.id)).reverse := by
    simp [load_items_loop_eq, Function.comp_def]
  refine ⟨?_, ?_, ?_⟩
  · simpa only [db_load_items_records, _recalc_last_db_item_id] using hids
  · simp only [db_load_items_records, _recalc_last_db_item_id]
    rw [hids, List.nodup_reverse]
    exact hdistinct
  · simp only [db_load_items_records, _recalc_last_db_item_id]
    exact last_db_item_id_loop_max_zero _

/-- The body of `db_insert_item` reads the tables, `db_items` and
`last_db_item_id` only: on two states that agree on them its results agree on
them. -/
theorem db_insert_item_records_congr (s t : DbState) (name : String)
    (h1 : s.db = t.db) (h2 : s.db_items = t.db_items)
    (h3 : s.last_db_item_id = t.last_db_item_id) :
    (db_insert_item_records s name).db = (db_insert_item_records t name).db ∧
    (db_insert_item_records s name).db_items = (db_insert_item_records t name).db_items ∧
    (db_insert_item_records s name).last_db_item_id =
      (db_insert_item_records t name).last_db_item_id := by
  have hex : db_item_exists s name = db_item_exists t name := by
    simp only [db_item_exists, h1]
  cases hb : db_item_exists t name with
  | true =>
    rw [db_insert_item_records_present s name (hex.trans hb),
      db_insert_item_records_present t name hb]
    exact ⟨h1, h2, h3⟩
  | false =>
    simp only [db_insert_item_records, hex, hb, _recalc_last_db_item_id, h1, h2, h3,
      Bool.not_false, if_true, and_self]

theorem db_insert_item_records_enabled (st : DbState) (name : String) :
    (db_insert_item_records st name).db_enabled = st.db_enabled := by
  unfold db_insert_item_records
  split <;> rfl

/-- A sequence of `db_insert_item` calls that completes leaves the tables,
`db_items` and `last_db_item_id` that the bodies of the calls leave without
their rebuilds. -/
theorem db_insert_items_fields (calls : List (Int × String)) (s t fin : DbState)
    (hen : s.db_enabled = true)
    (h1 : s.db = t.db) (h2 : s.db_items = t.db_items)
    (h3 : s.last_db_item_id = t.last_db_item_id)
    (hrun : db_insert_items s calls = some fin) :
    fin.db = (db_insert_items_records t (calls.map Prod.snd)).db ∧
    fin.db_items = (db_insert_items_records t (calls.map Prod.snd)).db_items ∧
    fin.last_db_item_id = (db_insert_items_records t (calls.map Prod.snd)).last_db_item_id := by
  induction calls generalizing s t with
  | nil =>
    simp only [db_insert_items, Option.some.injEq] at hrun
    subst hrun
    exact ⟨h1, h2, h3⟩
  | cons c rest ih =>
    simp only [db_insert_items] at hrun
    split at hrun
    · cases hrun
    · rename_i s1 hs1
      simp only [db_insert_item, hen, Bool.not_true, Bool.false_eq_true, if_false] at hs1
      obtain ⟨f1, f2, _, f4, f5, _, _⟩ := recalc_db_item_caches_frame hs1
      obtain ⟨g1, g2, g3⟩ := db_insert_item_records_congr s t c.2 h1 h2 h3
      simp only [List.map_cons, db_insert_items_records]
      exact ih s1 (db_insert_item_records t c.2)
        (by rw [f1, db_insert_item_records_enabled]; exact hen)
        (f2.trans g1) (f4.trans g2) (f5.trans g3) hrun

/-- C7 (amended). Persisted id assignment: from the list that `db_load_items`
builds out of a table with pairwise distinct ids, after the bodies of any
sequence of `db_insert_item` calls during which `last_db_item_id` cannot pass
`INT_MAX`, the persisted ids are pairwise distinct, in `db_items` and in the
table, and `last_db_item_id` is the maximum of 0 and the persisted ids; a
further call with a name that has no record, with `last_db_item_id` below
`INT_MAX`, adds the record with that maximum plus 1 as its id, in the list and
in the table, which is above every existing persisted id; and every
`db_load_items` and sequence of `db_insert_item` calls that complete on an
enabled engine leave exactly these tables, list and `last_db_item_id`. -/
theorem persisted_id_assignment (st0 st : DbState) (names : List String)
    (hdistinct : (st0.db.txn.items.map (fun r => r.id)).Nodup)
    (hroom : (db_load_items_records st0).last_db_item_id + (names.length : Int) ≤ INT_MAX)
    (hst : st = db_insert_items_records (db_load_items_records st0) names) :
    ((st.db_items.map (fun it => it.id)).Nodup ∧
      (st.db.txn.items.map (fun r => r.id)).Nodup ∧
      st.last_db_item_id = max_zero_db_item_id st.db_items ∧
      ∀ it ∈ st.db_items, it.id ≤ st.last_db_item_id) ∧
    (∀ name : String, db_item_exists st name = false → st.last_db_item_id < INT_MAX →
      (db_insert_item_records st name).db_items =
        { name := some name, id := max_zero_db_item_id st.db_items + 1 } :: st.db_items ∧
      (db_insert_item_records st name).db.txn.items = st.db.txn.items ++
        [{ id := max_zero_db_item_id st.db_items + 1, name := name }] ∧
      (db_insert_item_records st name).last_db_item_id = max_zero_db_item_id st.db_items + 1 ∧
      ∀ it ∈ st.db_items, it.id < max_zero_db_item_id st.db_items + 1) ∧
    (∀ (s fin : DbState) (calls : List (Int × String)), st0.db_enabled = true →
      db_load_items st0 = some s → db_insert_items s calls = some fin →
      calls.map Prod.snd = names →
      fin.db = st.db ∧ fin.db_items = st.db_items ∧
        fin.last_db_item_id = st.last_db_item_id) := by
  have hok0 := db_load_items_records_ok st0 hdistinct
  obtain ⟨hok, _⟩ := db_insert_items_records_ok names _ hok0 hroom
  rw [← hst] at hok
  refine ⟨⟨hok.2.1, ?_, hok.2.2, (persistedIdsOk_bounds st hok).2⟩, ?_, ?_⟩
  · have h2 := hok.2.1
    rw [hok.1, List.nodup_reverse] at h2
    exact h2
  · intro name habs hmax
    rw [db_insert_item_records_absent st name hok habs hmax]
    refine ⟨rfl, rfl, rfl, ?_⟩
    intro it hit
    have := le_max_zero_db_item_id st.db_items it hit
    omega
  · intro s fin calls hen hload hrun hnames
    simp only [db_load_items, hen, Bool.not_true, Bool.false_eq_true, if_false] at hload
    obtain ⟨f1, f2, _, f4, f5, _, _⟩ := recalc_db_item_caches_frame hload
    have := db_insert_items_fields calls s (db_load_items_records st0) fin
      (by rw [f1]; simp only [db_load_items_records, _recalc_last_db_item_id]; exact hen)
      f2 f4 f5 hrun
    rw [hnames, ← hst] at this
    exact this

/-- C8. Persist-if-absent on an existing name: for a name that has a record in
table `items`, a `db_insert_item` that completes leaves the tables, `db_items`,
`last_db_item_id`, the registry and the queue unchanged; on an enabled engine
it is exactly a fresh `_recalc_db_item_caches` on the current state, so the two
arrays are those of the fresh rebuild; and it completes whenever no persisted
id is negative or above `last_db_item_id`, no runtime id is above
`last_item_id`, and these values are in the range of their C types
(`last_db_item_id` below `INT_MAX`, the runtime ids at most `INT_MAX`,
`last_item_id` below `UINT_MAX`). -/
theorem persist_existing_name (st : DbState) (id : Int) (name : String)
    (hex : ∃ row ∈ st.db.txn.items, row.name = name) :
    (∀ st1, db_insert_item st id name = some st1 →
      st1.db = st.db ∧ st1.db_items = st.db_items ∧
      st1.last_db_item_id = st.last_db_item_id ∧ st1.items = st.items ∧
      st1.last_item_id = st.last_item_id ∧ st1.ring = st.ring) ∧
    (st.db_enabled = true →
      db_insert_item st id name = _recalc_db_item_caches st ∧
      (∀ st1 fresh, db_insert_item st id name = some st1 →
        _recalc_db_item_caches st = some fresh →
        st1._db_to_id = fresh._db_to_id ∧ st1._id_to_db = fresh._id_to_db) ∧
      ((∀ it ∈ st.db_items, 0 ≤ it.id ∧ it.id ≤ st.last_db_item_id) →
        (∀ i ∈ st.items, i.id ≤ st.last_item_id) →
        st.last_db_item_id < INT_MAX → (∀ i ∈ st.items, (i.id : Int) ≤ INT_MAX) →
        st.last_item_id < UINT_MAX →
        ∃ st1, db_insert_item st id name = some st1)) := by
  have hexists := (db_item_exists_iff st name).mpr hex
  constructor
  · intro st1 h1
    cases hen : st.db_enabled with
    | false =>
      simp only [db_insert_item, hen, Bool.not_false, if_true, Option.some.injEq] at h1
      subst h1
      exact ⟨rfl, rfl, rfl, rfl, rfl, rfl⟩
    | true =>
      rw [db_insert_item_present st id name hen hexists] at h1
      obtain ⟨_, f2, f3, f4, f5, f6, f7⟩ := recalc_db_item_caches_frame h1
      exact ⟨f2, f4, f5, f6, f7, f3⟩
  · intro hen
    have hpres := db_insert_item_present st id name hen hexists
    refine ⟨hpres, ?_, ?_⟩
    · intro st1 fresh h1 hf
      rw [hpres, hf] at h1
      cases h1
      exact ⟨rfl, rfl⟩
    · intro hdb hreg hmax hint hlast
      obtain ⟨a, b, hab⟩ := recalc_db_item_caches_some st hdb hmax hreg hint hlast
      exact ⟨_, hpres.trans hab⟩

/-! ## Instances on concrete states -/

/-- Witness of `commit_ordering`: a block insert, COMMIT, a key update. -/
theorem commit_ordering_witness :
    ((∀ e ∈ [craft_block_entry], e.isWrite = true) ∧
      craft_commit_entry.type = RingEntryType.COMMIT ∧
      (∀ e ∈ [craft_key_entry], e.isWrite = true)) ∧
    (db_worker_run { craft_ex with
        ring := [craft_block_entry] ++ craft_commit_entry :: [craft_key_entry] } =
      ({ craft_ex with
          db := { committed := apply_writes craft_ex.db.txn [craft_block_entry],
                  txn := apply_writes (apply_writes craft_ex.db.txn [craft_block_entry])
                    [craft_key_entry] },
          ring := [] }, none) ∧
    (db_worker_run { craft_ex with
        ring := [craft_block_entry] ++
          craft_commit_entry :: ([craft_key_entry] ++ [craft_commit_entry]) }).1.db.committed =
      apply_writes (apply_writes craft_ex.db.txn [craft_block_entry]) [craft_key_entry]) :=
  ⟨⟨by decide, by decide, by decide⟩,
   commit_ordering craft_ex [craft_block_entry] [craft_key_entry] craft_commit_entry
    craft_commit_entry (by decide) (by decide) (by decide) (by decide)⟩

/-- Witness of `drain_on_shutdown`: a block insert, a key update and a second
block insert at the same key, then EXIT, then a late command. After `db_close`
the durable content holds the key row and the block row of the second insert,
beside the item rows it had. -/
theorem drain_on_shutdown_witness :
    (craft_ex.db_enabled = true ∧
      (∀ e ∈ [craft_block_entry, craft_key_entry, { craft_block_entry with w := 8 }],
        e.isWrite = true) ∧
      craft_exit_entry.type = RingEntryType.EXIT) ∧
    (db_worker_run { craft_ex with
        ring := [craft_block_entry, craft_key_entry, { craft_block_entry with w := 8 }] ++
          craft_exit_entry :: [craft_key_entry] }).2 = some 0 ∧
    (db_worker_run { craft_ex with
        ring := [craft_block_entry, craft_key_entry, { craft_block_entry with w := 8 }] ++
          craft_exit_entry :: [craft_key_entry] }).1.ring = [craft_key_entry] ∧
    db_close { craft_ex with
        ring := [craft_block_entry, craft_key_entry, { craft_block_entry with w := 8 }] } =
      some { craft_ex with
        db := { committed := { craft_ex.db.txn with
                  block := [{ p := 1, q := 2, x := 3, y := 4, z := 5, w := 8 }],
                  key := [{ p := 1, q := 2, key := 7 }] },
                txn := { craft_ex.db.txn with
                  block := [{ p := 1, q := 2, x := 3, y := 4, z := 5, w := 8 }],
                  key := [{ p := 1, q := 2, key := 7 }] } },
        ring := [] } :=
  ⟨⟨by decide, by decide, by decide⟩,
   congrArg Prod.snd (drain_on_shutdown craft_ex
    [craft_block_entry, craft_key_entry, { craft_block_entry with w := 8 }] [craft_key_entry]
    craft_exit_entry (by decide) (by decide) (by decide)).1,
   congrArg (fun r => r.1.ring) (drain_on_shutdown craft_ex
    [craft_block_entry, craft_key_entry, { craft_block_entry with w := 8 }] [craft_key_entry]
    craft_exit_entry (by decide) (by decide) (by decide)).1,
   by decide⟩

/-- C7 (counterexample). The id assignment as stated fails on a table whose
ids are all negative and at `INT_MAX`. With the one row `(-5, a)` the load
leaves `last_db_item_id` at 0 where the maximum id is -5, and `db_insert_item`
for a new name gives the id 1, not -4. With the one row `(INT_MAX, a)` the
`int` sum `last_db_item_id + 1` overflows and the new record gets the id
`INT_MIN`, which is not above the existing id. -/
theorem persisted_id_assignment_counterexample :
    ((craft_neg_unloaded.db.txn.items.map (fun r => r.id)).Nodup ∧
      (db_load_items_records craft_neg_unloaded).db_items = [{ name := none, id := -5 }] ∧
      (db_load_items_records craft_neg_unloaded).last_db_item_id = 0 ∧
      max_db_item_id_or_zero (db_load_items_records craft_neg_unloaded).db_items = -5 ∧
      db_item_exists (db_load_items_records craft_neg_unloaded) "b" = false ∧
      (db_insert_item_records (db_load_items_records craft_neg_unloaded) "b").db_items =
        [{ name := some "b", id := 1 }, { name := none, id := -5 }]) ∧
    ((craft_max_unloaded.db.txn.items.map (fun r => r.id)).Nodup ∧
      (db_load_items_records craft_max_unloaded).last_db_item_id = 2147483647 ∧
      db_item_exists (db_load_items_records craft_max_unloaded) "b" = false ∧
      (db_insert_item_records (db_load_items_records craft_max_unloaded) "b").db_items =
        [{ name := some "b", id := -2147483648 }, { name := none, id := 2147483647 }]) := by
  refine ⟨⟨by decide, by decide, by decide, by decide, by decide, by decide⟩,
    ⟨by decide, by decide, by decide, by decide⟩⟩

/-- Witness of `persisted_id_assignment`: the table of `craft_ex_unloaded` is
loaded and `stone` is inserted; the load gives `craft_ex_reloaded`, the
insertion gives `craft_ex_stone`, where `stone` has persisted id 3. -/
theorem persisted_id_assignment_witness :
    ((craft_ex_unloaded.db.txn.items.map (fun r => r.id)).Nodup ∧
      (db_load_items_records craft_ex_unloaded).last_db_item_id +
        (([("stone" : String)].length : Nat) : Int) ≤ INT_MAX ∧
      craft_ex_unloaded.db_enabled = true ∧
      db_load_items craft_ex_unloaded = some craft_ex_reloaded ∧
      db_insert_items craft_ex_reloaded [(0, "stone")] = some craft_ex_stone) ∧
    ((craft_ex_stone.db_items.map (fun it => it.id)).Nodup ∧
      (craft_ex_stone.db.txn.items.map (fun r => r.id)).Nodup ∧
      craft_ex_stone.last_db_item_id = max_zero_db_item_id craft_ex_stone.db_items ∧
      ∀ it ∈ craft_ex_stone.db_items, it.id ≤ craft_ex_stone.last_db_item_id) ∧
    craft_ex_stone.db_items.map (fun it => it.id) = [3, 2, 1] :=
  ⟨⟨by decide, by decide, by decide, by decide, by decide⟩,
   by
    have h := persisted_id_assignment craft_ex_unloaded
      (db_insert_items_records (db_load_items_records craft_ex_unloaded) ["stone"]) ["stone"]
      (by decide) (by decide) rfl
    obtain ⟨f1, f2, f3⟩ := h.2.2 craft_ex_reloaded craft_ex_stone [(0, "stone")] (by decide)
      (by decide) (by decide) (by decide)
    have h1 := h.1
    rw [← f1, ← f2, ← f3] at h1
    exact h1,
   by decide⟩

/-- Witness of `persist_existing_name`: `grass` has a record in `craft_ex`. -/
theorem persist_existing_name_witness :
    ((∃ row ∈ craft_ex.db.txn.items, row.name = "grass") ∧ craft_ex.db_enabled = true) ∧
    db_insert_item craft_ex 0 "grass" = some craft_ex_after ∧
    craft_ex_after.db = craft_ex.db :=
  ⟨⟨by decide, by decide⟩,
   (((persist_existing_name craft_ex 0 "grass" (by decide)).2 (by decide)).1).trans (by decide),
   ((persist_existing_name craft_ex 0 "grass" (by decide)).1 craft_ex_after (by decide)).1⟩

/-- Witness of `block_round_trip` on `craft_ex` with an empty map. -/
theorem block_round_trip_witness :
    (craft_ex.db_enabled = true ∧ ∀ e ∈ craft_ex.ring, e.type ≠ RingEntryType.EXIT) ∧
    map_get (db_load_blocks (db_worker_run (db_insert_block craft_ex 1 2 3 4 5 6)).1 [] 1 2)
      3 4 5 = 6 ∧
    map_get (db_load_blocks (db_worker_run (db_insert_block
      (db_worker_run (db_insert_block craft_ex 1 2 3 4 5 6)).1 1 2 3 4 5 9)).1 [] 1 2)
      3 4 5 = 9 :=
  ⟨⟨by decide, by decide⟩,
   (block_round_trip craft_ex [] 1 2 3 4 5 6 9 (by decide) (by decide)).1.2,
   (block_round_trip craft_ex [] 1 2 3 4 5 6 9 (by decide) (by decide)).2.2⟩

/-- Witness of `sign_unique_exact_delete` on `craft_ex`. -/
theorem sign_unique_exact_delete_witness :
    craft_ex.db_enabled = true ∧
    (db_insert_sign (db_insert_sign craft_ex 0 0 1 2 3 4 "old") 0 0 1 2 3 4 "new").db.txn.sign.filter
        (fun r => r.hasKey 1 2 3 4) =
      [{ p := 0, q := 0, x := 1, y := 2, z := 3, face := 4, text := "new" }] :=
  ⟨by decide,
   (sign_unique_exact_delete craft_ex 0 0 0 0 1 2 3 4 "old" "new" (by decide)).1⟩

/-! ## Player state: one row, last save wins -/

theorem db_save_state_enabled (st : DbState) (x y z rx ry : CFloat) :
    (db_save_state st x y z rx ry).db_enabled = st.db_enabled := by
  unfold db_save_state
  split <;> rfl

theorem db_save_states_enabled (saves : List StateRow) (st : DbState) :
    (db_save_states st saves).db_enabled = st.db_enabled := by
  induction saves generalizing st with
  | nil => rfl
  | cons a rest ih =>
    simp only [db_save_states]
    rw [ih, db_save_state_enabled]

theorem db_save_states_append (saves : List StateRow) (st : DbState) (last : StateRow) :
    db_save_states st (saves ++ [last]) =
      db_save_state (db_save_states st saves) last.x last.y last.z last.rx last.ry := by
  induction saves generalizing st with
  | nil => rfl
  | cons a rest ih =>
    simp only [List.cons_append, db_save_states]
    exact ih _

/-- On an enabled engine table `state` holds exactly the saved row after
`db_save_state` with no NaN among the values, whatever it held before. -/
theorem db_save_state_rows (st : DbState) (hen : st.db_enabled = true)
    (x y z rx ry : CFloat)
    (hnum : StateRow.hasNaN { x := x, y := y, z := z, rx := rx, ry := ry } = false) :
    (db_save_state st x y z rx ry).db.txn.state =
      [{ x := x, y := y, z := z, rx := rx, ry := ry }] := by
  simp [db_save_state, hen, insert_state_query, delete_state_query, hnum]

/-- On an enabled engine table `state` is empty after `db_save_state` with a
NaN among the values, whatever it held before. -/
theorem db_save_state_nan (st : DbState) (hen : st.db_enabled = true)
    (x y z rx ry : CFloat)
    (hnan : StateRow.hasNaN { x := x, y := y, z := z, rx := rx, ry := ry } = true) :
    (db_save_state st x y z rx ry).db.txn.state = [] := by
  simp [db_save_state, hen, insert_state_query, delete_state_query, hnan]

/-- C11 (counterexample). Table `state` holds the row of an earlier save;
`db_save_state` is called with a NaN as `x`. The delete runs, the insert is
rejected, the table is left without a row and `db_load_state` returns 0 with
its outputs as they were. -/
theorem single_row_state_counterexample :
    craft_saved.db_enabled = true ∧
    craft_saved.db.txn.state = [craft_pose_a] ∧
    craft_pose_nan.x = CFloat.nan ∧
    (db_save_state craft_saved craft_pose_nan.x craft_pose_nan.y craft_pose_nan.z
      craft_pose_nan.rx craft_pose_nan.ry).db.txn.state = [] ∧
    db_load_state (db_save_state craft_saved craft_pose_nan.x craft_pose_nan.y craft_pose_nan.z
      craft_pose_nan.rx craft_pose_nan.ry) craft_pose_b = (0, craft_pose_b) := by
  refine ⟨by decide, by decide, by decide, by decide, by decide⟩

/-- C11 (amended). Single-row player state: on an enabled engine, for every
content of table `state` and every `(x, y, z, rx, ry)` none of which is a NaN,
after `db_save_state` the table holds exactly one row, the one of that call;
after any sequence of saves whose last one has no NaN among its values the
table holds exactly the row of the last save and `db_load_state` returns 1 with
the values of the last save in its outputs; and it returns 0 and leaves its
outputs as they were when the table holds no row. -/
theorem single_row_state (st : DbState) (hen : st.db_enabled = true)
    (saves : List StateRow) (last : StateRow) (x y z rx ry : CFloat) (out : StateRow)
    (hnum : StateRow.hasNaN { x := x, y := y, z := z, rx := rx, ry := ry } = false)
    (hlast : last.hasNaN = false) :
    (db_save_state st x y z rx ry).db.txn.state =
      [{ x := x, y := y, z := z, rx := rx, ry := ry }] ∧
    (db_save_states st (saves ++ [last])).db.txn.state = [last] ∧
    db_load_state (db_save_states st (saves ++ [last])) out = (1, last) ∧
    (st.db.txn.state = [] → db_load_state st out = (0, out)) := by
  have hen1 : (db_save_states st saves).db_enabled = true := by
    rw [db_save_states_enabled, hen]
  have hrows : (db_save_states st (saves ++ [last])).db.txn.state = [last] := by
    rw [db_save_states_append, db_save_state_rows _ hen1 _ _ _ _ _ hlast]
  have hen2 : (db_save_states st (saves ++ [last])).db_enabled = true := by
    rw [db_save_states_enabled, hen]
  refine ⟨db_save_state_rows st hen x y z rx ry hnum, hrows, ?_, ?_⟩
  · simp only [db_load_state, hen2, hrows, Bool.not_true, Bool.false_eq_true, if_false]
  · intro hempty
    simp only [db_load_state, hen, hempty, Bool.not_true, Bool.false_eq_true, if_false]

/-- Witness of `single_row_state` on `craft_saved`: a save with a NaN, then two
saves without; the last one wins. -/
theorem single_row_state_witness :
    (craft_saved.db_enabled = true ∧ craft_pose_a.hasNaN = false ∧
      craft_pose_b.hasNaN = false) ∧
    (db_save_state craft_saved craft_pose_a.x craft_pose_a.y craft_pose_a.z craft_pose_a.rx
      craft_pose_a.ry).db.txn.state = [craft_pose_a] ∧
    db_load_state (db_save_states craft_saved ([craft_pose_nan, craft_pose_a] ++ [craft_pose_b]))
      craft_pose_a = (1, craft_pose_b) ∧
    (craft_ex.db.txn.state = [] ∧ db_load_state craft_ex craft_pose_a = (0, craft_pose_a)) :=
  ⟨⟨by decide, by decide, by decide⟩,
   (single_row_state craft_saved (by decide) [craft_pose_nan, craft_pose_a] craft_pose_b
      craft_pose_a.x craft_pose_a.y craft_pose_a.z craft_pose_a.rx craft_pose_a.ry craft_pose_a
      (by decide) (by decide)).1,
   (single_row_state craft_saved (by decide) [craft_pose_nan, craft_pose_a] craft_pose_b
      craft_pose_a.x craft_pose_a.y craft_pose_a.z craft_pose_a.rx craft_pose_a.ry craft_pose_a
      (by decide) (by decide)).2.2.1,
   by decide,
   (single_row_state craft_ex (by decide) [] craft_pose_b
      craft_pose_a.x craft_pose_a.y craft_pose_a.z craft_pose_a.rx craft_pose_a.ry craft_pose_a
      (by decide) (by decide)).2.2.2 (by decide)⟩

/-! ## Queued and direct writes -/

/-- After `insert_sign_query` the rows with another key are the ones the table
had. -/
theorem insert_sign_query_other (rows : List SignRow) (p q x y z face : Int) (text : String) :
    (insert_sign_query rows p q x y z face text).filter (fun r => !r.hasKey x y z face) =
      rows.filter (fun r => !r.hasKey x y z face) := by
  simp [insert_sign_query, List.filter_append, List.filter_filter, SignRow.hasKey]

/-- After `delete_sign_query` no row holds the key. -/
theorem delete_sign_query_key (rows : List SignRow) (x y z face : Int) :
    (delete_sign_query rows x y z face).filter (fun r => r.hasKey x y z face) = [] := by
  simp [delete_sign_query, List.filter_filter]

/-- After `delete_sign_query` the rows with another key are the ones the table
had. -/
theorem delete_sign_query_other (rows : List SignRow) (x y z face : Int) :
    (delete_sign_query rows x y z face).filter (fun r => !r.hasKey x y z face) =
      rows.filter (fun r => !r.hasKey x y z face) := by
  simp [delete_sign_query, List.filter_filter]

/-- After `delete_signs_query` no row is at the position. -/
theorem delete_signs_query_at (rows : List SignRow) (x y z : Int) :
    (delete_signs_query rows x y z).filter (fun r => decide (r.x = x ∧ r.y = y ∧ r.z = z)) =
      [] := by
  simp [delete_signs_query, List.filter_filter]

/-- After `delete_signs_query` the rows at another position are the ones the
table had. -/
theorem delete_signs_query_other (rows : List SignRow) (x y z : Int) :
    (delete_signs_query rows x y z).filter (fun r => !decide (r.x = x ∧ r.y = y ∧ r.z = z)) =
      rows.filter (fun r => !decide (r.x = x ∧ r.y = y ∧ r.z = z)) := by
  simp [delete_signs_query, List.filter_filter]

/-- C12. Queued writes do not touch the store: on an enabled engine each of
`db_insert_block`, `db_insert_light`, `db_set_key` and `db_commit` leaves the
state as it was but for the queue, to which it appends exactly one command, of
kind BLOCK, LIGHT, KEY and COMMIT respectively, carrying the arguments of the
call; whereas `db_insert_sign`, `db_delete_sign`, `db_delete_signs` and
`db_save_state` leave the queue and every part of the state as it was but for
one table of the open transaction, which they change at the call: after
`db_insert_sign` the one row with the key `(x, y, z, face)` is the row of the
call, after `db_delete_sign` no row has the key, in both the rows with another
key are as they were; after `db_delete_signs` no row is at `(x, y, z)` and the
rows at another position are as they were; after `db_save_state` table `state`
holds the row of the call and nothing else, or nothing when one of the values
is a NaN. -/
theorem queued_writes_leave_store (st : DbState) (hen : st.db_enabled = true)
    (p q x y z w key face : Int) (text : String) (fx fy fz frx fry : CFloat) :
    (∃ e : RingEntry, db_insert_block st p q x y z w = { st with ring := st.ring ++ [e] } ∧
      e.type = RingEntryType.BLOCK ∧ e.p = p ∧ e.q = q ∧ e.x = x ∧ e.y = y ∧ e.z = z ∧
      e.w = w) ∧
    (∃ e : RingEntry, db_insert_light st p q x y z w = { st with ring := st.ring ++ [e] } ∧
      e.type = RingEntryType.LIGHT ∧ e.p = p ∧ e.q = q ∧ e.x = x ∧ e.y = y ∧ e.z = z ∧
      e.w = w) ∧
    (∃ e : RingEntry, db_set_key st p q key = { st with ring := st.ring ++ [e] } ∧
      e.type = RingEntryType.KEY ∧ e.p = p ∧ e.q = q ∧ e.key = key) ∧
    (∃ e : RingEntry, db_commit st = { st with ring := st.ring ++ [e] } ∧
      e.type = RingEntryType.COMMIT) ∧
    (∃ rows : List SignRow,
      db_insert_sign st p q x y z face text =
        { st with db := { committed := st.db.committed, txn := { st.db.txn with
            sign := rows } } } ∧
      (db_insert_sign st p q x y z face text).ring = st.ring ∧
      rows.filter (fun r => r.hasKey x y z face) =
        [{ p := p, q := q, x := x, y := y, z := z, face := face, text := text }] ∧
      rows.filter (fun r => !r.hasKey x y z face) =
        st.db.txn.sign.filter (fun r => !r.hasKey x y z face)) ∧
    (∃ rows : List SignRow,
      db_delete_sign st x y z face =
        { st with db := { committed := st.db.committed, txn := { st.db.txn with
            sign := rows } } } ∧
      (db_delete_sign st x y z face).ring = st.ring ∧
      rows.filter (fun r => r.hasKey x y z face) = [] ∧
      rows.filter (fun r => !r.hasKey x y z face) =
        st.db.txn.sign.filter (fun r => !r.hasKey x y z face)) ∧
    (∃ rows : List SignRow,
      db_delete_signs st x y z =
        { st with db := { committed := st.db.committed, txn := { st.db.txn with
            sign := rows } } } ∧
      (db_delete_signs st x y z).ring = st.ring ∧
      rows.filter (fun r => decide (r.x = x ∧ r.y = y ∧ r.z = z)) = [] ∧
      rows.filter (fun r => !decide (r.x = x ∧ r.y = y ∧ r.z = z)) =
        st.db.txn.sign.filter (fun r => !decide (r.x = x ∧ r.y = y ∧ r.z = z))) ∧
    (db_save_state st fx fy fz frx fry =
      { st with db := { committed := st.db.committed, txn := { st.db.txn with
          state :=
            if StateRow.hasNaN { x := fx, y := fy, z := fz, rx := frx, ry := fry } then []
            else [{ x := fx, y := fy, z := fz, rx := frx, ry := fry }] } } } ∧
      (db_save_state st fx fy fz frx fry).ring = st.ring) := by
  refine ⟨⟨{ type := RingEntryType.BLOCK, p := p, q := q, x := x, y := y, z := z, w := w },
      ?_, rfl, rfl, rfl, rfl, rfl, rfl, rfl⟩,
    ⟨{ type := RingEntryType.LIGHT, p := p, q := q, x := x, y := y, z := z, w := w },
      ?_, rfl, rfl, rfl, rfl, rfl, rfl, rfl⟩,
    ⟨{ type := RingEntryType.KEY, p := p, q := q, key := key }, ?_, rfl, rfl, rfl, rfl⟩,
    ⟨{ type := RingEntryType.COMMIT }, ?_, rfl⟩,
    ⟨insert_sign_query st.db.txn.sign p q x y z face text, ?_, ?_,
      insert_sign_query_key _ p q x y z face text,
      insert_sign_query_other _ p q x y z face text⟩,
    ⟨delete_sign_query st.db.txn.sign x y z face, ?_, ?_,
      delete_sign_query_key _ x y z face, delete_sign_query_other _ x y z face⟩,
    ⟨delete_signs_query st.db.txn.sign x y z, ?_, ?_,
      delete_signs_query_at _ x y z, delete_signs_query_other _ x y z⟩, ?_, ?_⟩
  · simp only [db_insert_block, hen, ring_put, Bool.not_true, Bool.false_eq_true, if_false]
  · simp only [db_insert_light, hen, ring_put, Bool.not_true, Bool.false_eq_true, if_false]
  · simp only [db_set_key, hen, ring_put, Bool.not_true, Bool.false_eq_true, if_false]
  · simp only [db_commit, hen, ring_put, Bool.not_true, Bool.false_eq_true, if_false]
  · simp only [db_insert_sign, hen, Bool.not_true, Bool.false_eq_true, if_false]
  · simp only [db_insert_sign, hen, Bool.not_true, Bool.false_eq_true, if_false]
  · simp only [db_delete_sign, hen, Bool.not_true, Bool.false_eq_true, if_false]
  · simp only [db_delete_sign, hen, Bool.not_true, Bool.false_eq_true, if_false]
  · simp only [db_delete_signs, hen, Bool.not_true, Bool.false_eq_true, if_false]
  · simp only [db_delete_signs, hen, Bool.not_true, Bool.false_eq_true, if_false]
  · simp only [db_save_state, hen, insert_state_query, delete_state_query, List.nil_append,
      Bool.not_true, Bool.false_eq_true, if_false]
  · simp only [db_save_state, hen, Bool.not_true, Bool.false_eq_true, if_false]

/-- Witness of `queued_writes_leave_store` on `craft_signs`, with the table
`sign` after each of the three sign operations and table `state` after a save
with and without a NaN written out. -/
theorem queued_writes_leave_store_witness :
    craft_signs.db_enabled = true ∧
    (∃ e : RingEntry,
      db_insert_block craft_signs 1 2 3 4 5 6 =
        { craft_signs with ring := craft_signs.ring ++ [e] } ∧
      e.type = RingEntryType.BLOCK ∧ e.p = 1 ∧ e.q = 2 ∧ e.x = 3 ∧ e.y = 4 ∧ e.z = 5 ∧
      e.w = 6) ∧
    db_insert_block craft_signs 1 2 3 4 5 6 =
      { craft_signs with ring := [craft_block_entry] } ∧
    db_set_key craft_signs 1 2 7 = { craft_signs with ring := [craft_key_entry] } ∧
    db_commit craft_signs = { craft_signs with ring := [craft_commit_entry] } ∧
    (db_insert_sign craft_signs 0 0 1 2 3 1 "d").db.txn.sign =
      [{ p := 0, q := 0, x := 1, y := 2, z := 3, face := 0, text := "a" },
       { p := 0, q := 0, x := 9, y := 9, z := 9, face := 0, text := "c" },
       { p := 0, q := 0, x := 1, y := 2, z := 3, face := 1, text := "d" }] ∧
    (db_delete_sign craft_signs 1 2 3 1).db.txn.sign =
      [{ p := 0, q := 0, x := 1, y := 2, z := 3, face := 0, text := "a" },
       { p := 0, q := 0, x := 9, y := 9, z := 9, face := 0, text := "c" }] ∧
    (db_delete_signs craft_signs 1 2 3).db.txn.sign =
      [{ p := 0, q := 0, x := 9, y := 9, z := 9, face := 0, text := "c" }] ∧
    (db_delete_signs craft_signs 1 2 3).ring = craft_signs.ring ∧
    (db_save_state craft_signs craft_pose_a.x craft_pose_a.y craft_pose_a.z craft_pose_a.rx
      craft_pose_a.ry).db.txn.state = [craft_pose_a] ∧
    (db_save_state craft_signs craft_pose_nan.x craft_pose_nan.y craft_pose_nan.z
      craft_pose_nan.rx craft_pose_nan.ry).db.txn.state = [] ∧
    (db_save_state craft_signs craft_pose_a.x craft_pose_a.y craft_pose_a.z craft_pose_a.rx
      craft_pose_a.ry).ring = craft_signs.ring :=
  ⟨by decide,
   (queued_writes_leave_store craft_signs (by decide) 1 2 3 4 5 6 7 1 "d" craft_pose_a.x
      craft_pose_a.y craft_pose_a.z craft_pose_a.rx craft_pose_a.ry).1,
   by decide, by decide, by decide, by decide, by decide, by decide, by decide, by decide,
   by decide,
   (queued_writes_leave_store craft_signs (by decide) 1 2 3 4 5 6 7 1 "d" craft_pose_a.x
      craft_pose_a.y craft_pose_a.z craft_pose_a.rx craft_pose_a.ry).2.2.2.2.2.2.2.2⟩

/-! ## The cache rebuild stays in bounds -/

/-- The loop writes out of bounds at a node whose `item_id` is negative,
whatever the sizes of the arrays. -/
theorem recalc_caches_loop_neg (items : List item_list) (it : db_item_list)
    (rest : List db_item_list) (a b : List Int) (h : cache_item_id items it.name < 0) :
    recalc_caches_loop items (it :: rest) a b = none := by
  have hb : array_store b (cache_item_id items it.name) it.id = none := by
    simp only [array_store]
    rw [if_neg]
    omega
  simp only [recalc_caches_loop]
  cases array_store a it.id (cache_item_id items it.name) with
  | none => rfl
  | some a1 => simp only [hb]

/-- C13 (counterexample). Three engines on which no persisted id is negative,
`last_db_item_id` is what `_recalc_last_db_item_id` computes and no runtime id
is above `last_item_id`, and on which `_recalc_db_item_caches` writes outside
an array it has just allocated: with the persisted id `INT_MAX` the `int` sum
`last_db_item_id + 1` is not a positive count; with the runtime id `UINT_MAX`
the `unsigned int` sum `last_item_id + 1` is 0; with the runtime id 3000000000
the index `item_id`, an `int`, is negative. -/
theorem rebuild_in_bounds_counterexample :
    ((∀ it ∈ craft_int_max.db_items, 0 ≤ it.id) ∧
      craft_int_max.last_db_item_id = (_recalc_last_db_item_id craft_int_max).last_db_item_id ∧
      (∀ i ∈ craft_int_max.items, i.id ≤ craft_int_max.last_item_id) ∧
      craft_int_max.last_db_item_id = INT_MAX ∧
      int_wrap (craft_int_max.last_db_item_id + 1) = -2147483648 ∧
      _recalc_db_item_caches craft_int_max = none) ∧
    ((∀ it ∈ craft_uint_max.db_items, 0 ≤ it.id) ∧
      craft_uint_max.last_db_item_id =
        (_recalc_last_db_item_id craft_uint_max).last_db_item_id ∧
      (∀ i ∈ craft_uint_max.items, i.id ≤ craft_uint_max.last_item_id) ∧
      craft_uint_max.last_item_id = UINT_MAX ∧
      uint_wrap (craft_uint_max.last_item_id + 1) = 0 ∧
      _recalc_db_item_caches craft_uint_max = none) ∧
    ((∀ it ∈ craft_big_id.db_items, 0 ≤ it.id) ∧
      craft_big_id.last_db_item_id = (_recalc_last_db_item_id craft_big_id).last_db_item_id ∧
      (∀ i ∈ craft_big_id.items, i.id ≤ craft_big_id.last_item_id) ∧
      cache_item_id craft_big_id.items (some "grass") = -1294967296 ∧
      _recalc_db_item_caches craft_big_id = none) := by
  refine ⟨⟨by decide, by decide, by decide, by decide, by decide, by decide⟩,
    ⟨by decide, by decide, by decide, by decide, by decide, by decide⟩,
    ⟨by decide, by decide, by decide, by decide, ?_⟩⟩
  have h : ∀ a b : List Int,
      recalc_caches_loop craft_big_id.items craft_big_id.db_items a b = none :=
    fun a b => recalc_caches_loop_neg craft_big_id.items { name := some "grass", id := 1 } []
      a b (by decide)
  simp only [_recalc_db_item_caches, h]

/-- C13 (amended). Cache rebuild stays in bounds: when no persisted id in
`db_items` is negative, `last_db_item_id` is what `_recalc_last_db_item_id`
computes on the current `db_items` and is below `INT_MAX`, every registry item
has an id of at most `last_item_id` and at most `INT_MAX`, and `last_item_id`
is below `UINT_MAX`, then every index `db_id` and `item_id` the loop of
`_recalc_db_item_caches` writes at is inside the arrays of
`last_db_item_id + 1` and `last_item_id + 1` elements, the rebuild completes
with arrays of these sizes, and afterwards every read of `item_db_to_id` and
`item_id_to_db` that passes the range test is inside its array and returns a
value. -/
theorem rebuild_in_bounds (st : DbState)
    (hnonneg : ∀ it ∈ st.db_items, 0 ≤ it.id)
    (hlast : st.last_db_item_id = (_recalc_last_db_item_id st).last_db_item_id)
    (hreg : ∀ i ∈ st.items, i.id ≤ st.last_item_id)
    (hmax : st.last_db_item_id < INT_MAX)
    (hint : ∀ i ∈ st.items, (i.id : Int) ≤ INT_MAX)
    (hlastid : st.last_item_id < UINT_MAX) :
    (∀ it ∈ st.db_items,
      (0 ≤ it.id ∧ it.id < st.last_db_item_id + 1) ∧
      (0 ≤ cache_item_id st.items it.name ∧
        cache_item_id st.items it.name < (st.last_item_id : Int) + 1)) ∧
    ∃ st1, _recalc_db_item_caches st = some st1 ∧
      (st1._db_to_id.length : Int) = st.last_db_item_id + 1 ∧
      st1._id_to_db.length = st.last_item_id + 1 ∧
      (∀ id : Nat, (id : Int) ≤ st1.last_db_item_id →
        id < st1._db_to_id.length ∧ ∃ v, item_db_to_id st1 id = some v) ∧
      (∀ id : Nat, id ≤ st1.last_item_id →
        id < st1._id_to_db.length ∧ ∃ v, item_id_to_db st1 id = some v) := by
  simp only [_recalc_last_db_item_id] at hlast
  rw [last_db_item_id_loop_max_zero] at hlast
  have h0 : 0 ≤ st.last_db_item_id := by
    rw [hlast]; exact max_zero_db_item_id_nonneg _
  have hdb : ∀ it ∈ st.db_items, 0 ≤ it.id ∧ it.id ≤ st.last_db_item_id := by
    intro it hit
    refine ⟨hnonneg it hit, ?_⟩
    rw [hlast]
    exact le_max_zero_db_item_id _ it hit
  constructor
  · intro it hit
    have h1 := hdb it hit
    have h2 := cache_item_id_range st.items it.name st.last_item_id hreg hint
    exact ⟨⟨h1.1, by omega⟩, ⟨h2.1, by omega⟩⟩
  · obtain ⟨a, b, hab⟩ := recalc_db_item_caches_some st hdb hmax hreg hint hlastid
    obtain ⟨_, hst1⟩ := recalc_db_item_caches_spec hab
    simp only [INT_MAX] at hmax
    simp only [UINT_MAX] at hlastid
    have hla : (a.length : Int) = st.last_db_item_id + 1 := by
      have := congrArg DbState._db_to_id hst1
      simp only at this
      rw [this, foldl_set_length, List.length_replicate]
      simp only [int_wrap]
      omega
    have hlb : b.length = st.last_item_id + 1 := by
      have := congrArg DbState._id_to_db hst1
      simp only at this
      rw [this, foldl_set_length, List.length_replicate]
      simp only [uint_wrap]
      omega
    refine ⟨_, hab, hla, hlb, ?_, ?_⟩
    · intro id hid
      simp only at hid
      have hlt : id < a.length := by omega
      refine ⟨hlt, a[id], ?_⟩
      simp only [item_db_to_id, hid, if_true]
      exact List.getElem?_eq_getElem hlt
    · intro id hid
      simp only at hid
      have hlt : id < b.length := by omega
      refine ⟨hlt, b[id], ?_⟩
      simp only [item_id_to_db, hid, if_true]
      exact List.getElem?_eq_getElem hlt

/-- Witness of `rebuild_in_bounds` on `craft_ex`, with the rebuilt arrays
written out. -/
theorem rebuild_in_bounds_witness :
    ((∀ it ∈ craft_ex.db_items, 0 ≤ it.id) ∧
      craft_ex.last_db_item_id = (_recalc_last_db_item_id craft_ex).last_db_item_id ∧
      (∀ i ∈ craft_ex.items, i.id ≤ craft_ex.last_item_id) ∧
      craft_ex.last_db_item_id < INT_MAX ∧
      (∀ i ∈ craft_ex.items, (i.id : Int) ≤ INT_MAX) ∧
      craft_ex.last_item_id < UINT_MAX) ∧
    (_recalc_db_item_caches craft_ex = some craft_ex_after ∧
      craft_ex_after._db_to_id = [0, 2, 1] ∧ craft_ex_after._id_to_db = [0, 2, 1, 0]) ∧
    ∃ st1, _recalc_db_item_caches craft_ex = some st1 ∧
      (st1._db_to_id.length : Int) = craft_ex.last_db_item_id + 1 ∧
      st1._id_to_db.length = craft_ex.last_item_id + 1 ∧
      (∀ id : Nat, (id : Int) ≤ st1.last_db_item_id →
        id < st1._db_to_id.length ∧ ∃ v, item_db_to_id st1 id = some v) ∧
      (∀ id : Nat, id ≤ st1.last_item_id →
        id < st1._id_to_db.length ∧ ∃ v, item_id_to_db st1 id = some v) :=
  ⟨⟨by decide, by decide, by decide, by decide, by decide, by decide⟩,
   ⟨by decide, by decide, by decide⟩,
   (rebuild_in_bounds craft_ex (by decide) (by decide) (by decide) (by decide) (by decide)
      (by decide)).2⟩

end Craft
